/-
  Verification of the STL CAM tool (mesh loader, surface query, toolpath
  generator, G-code serializer) against its natural-language specification.

  The JavaScript sources are embedded shallowly: numbers are modelled as
  exact rationals (ℚ), byte buffers as `List UInt8`, fallible primitives
  (DataView reads that may throw a RangeError) as `Option`, and the
  imperative loops as structural recursion / `List` combinators.
-/
import Mathlib

set_option maxRecDepth 4000

-- `Rat.add`/`Rat.mul`/`Rat.sub`/`Rat.inv` are `@[irreducible]` in Batteries;
-- lift that so that concrete runs of the embedded code reduce under `decide`.
unseal Rat.mul Rat.add Rat.sub Rat.inv Rat.ofScientific

/-! ## Data model: points, triangles, bounds, machining parameters -/

/-- A 3-component point/vector with exact rational coordinates
(embeds `THREE.Vector3` as used by the toolpath generator). -/
structure Vec3 where
  x : ℚ
  y : ℚ
  z : ℚ
deriving DecidableEq, Repr

/-- A mesh triangle: three vertices (embeds one entry of the triangle soup
held by the `THREE.Mesh` that `ToolpathGenerator.generate` receives). -/
structure Tri where
  a : Vec3
  b : Vec3
  c : Vec3
deriving DecidableEq, Repr

/-- The selection volume: an axis-aligned box `{min, max}`
(embeds the `bounds` object passed to `ToolpathGenerator.generate`). -/
structure Bounds where
  min : Vec3
  max : Vec3
deriving DecidableEq, Repr

/-- Machining parameters (embeds `ToolpathGenerator.params`):
`stepover` is the row spacing as a fraction of `toolDiameter`. -/
structure Params where
  toolDiameter : ℚ
  stepover : ℚ
  stepdown : ℚ
  feedRate : ℚ
  safeZ : ℚ
deriving DecidableEq, Repr

/-! ## Surface query: downward ray casting

`ToolpathGenerator.findSurfaceAtPoint` delegates the geometric work to
`THREE.Raycaster.intersectObject`, which is library code outside this
repository; it is modelled here from the spec. -/

/-- One ray/mesh intersection record: the distance from the ray origin and
the intersection point (embeds the relevant fields of a `THREE.Raycaster`
intersection record). -/
structure Hit where
  distance : ℚ
  point : Vec3
deriving DecidableEq, Repr

/-- Modelled from the spec: the ray-triangle intersection test used by
`THREE.Raycaster` (library code, not part of this repository) — "a standard
exact test (e.g., Möller–Trumbore); degenerate (zero-area) triangles must be
skipped without raising an error."  The ray is specialised to the generator's
only ray: origin `o`, direction `(0, 0, -1)`.  For that direction the
Möller–Trumbore determinant is `e1.x*e2.y - e1.y*e2.x`; a zero determinant
(degenerate or vertical triangle) yields no hit, and a hit requires
barycentric coordinates `u, v ≥ 0`, `u + v ≤ 1` and ray parameter `t ≥ 0`. -/
def intersectTriangleDown (o : Vec3) (t : Tri) : Option Hit :=
  let e1x := t.b.x - t.a.x
  let e1y := t.b.y - t.a.y
  let e1z := t.b.z - t.a.z
  let e2x := t.c.x - t.a.x
  let e2y := t.c.y - t.a.y
  let e2z := t.c.z - t.a.z
  -- pvec = dir × e2 with dir = (0,0,-1), so pvec = (e2.y, -e2.x, 0)
  let det := e1x * e2y - e1y * e2x
  if det = 0 then none
  else
    let tvx := o.x - t.a.x
    let tvy := o.y - t.a.y
    let tvz := o.z - t.a.z
    let u := (tvx * e2y - tvy * e2x) / det
    -- qvec = tvec × e1
    let qx := tvy * e1z - tvz * e1y
    let qy := tvz * e1x - tvx * e1z
    let qz := tvx * e1y - tvy * e1x
    -- v = dir · qvec / det with dir = (0,0,-1)
    let v := (-qz) / det
    let tt := (e2x * qx + e2y * qy + e2z * qz) / det
    if 0 ≤ u ∧ 0 ≤ v ∧ u + v ≤ 1 ∧ 0 ≤ tt then
      some { distance := tt, point := { x := o.x, y := o.y, z := o.z - tt } }
    else none

/-- The comparison `THREE.Raycaster` sorts intersection records by:
ascending distance from the ray origin. -/
def hitLE (h₁ h₂ : Hit) : Prop := h₁.distance ≤ h₂.distance

instance : DecidableRel hitLE :=
  fun h₁ h₂ => inferInstanceAs (Decidable (h₁.distance ≤ h₂.distance))

instance : IsTotal Hit hitLE := ⟨fun a b => le_total a.distance b.distance⟩

instance : IsTrans Hit hitLE := ⟨fun _ _ _ hab hbc => le_trans hab hbc⟩

/-- Modelled from the spec: `THREE.Raycaster.intersectObject` (library code,
not part of this repository) — casts the ray "against every triangle in the
Mesh Model, collects all intersections, sorts them by increasing distance
from the ray origin". -/
def raycastDown (mesh : List Tri) (o : Vec3) : List Hit :=
  List.insertionSort hitLE (mesh.filterMap (intersectTriangleDown o))

/-- The scan of the sorted intersection list inside
`ToolpathGenerator.findSurfaceAtPoint` (`for (let hit of intersects) { if
(hit.point.z <= maxZ && hit.point.z >= this.bounds.min.z) return hit.point.z; }
return null`). -/
def firstHitInRange (maxZ minZ : ℚ) : List Hit → Option ℚ
  | [] => none
  | h :: rest =>
    if h.point.z ≤ maxZ ∧ h.point.z ≥ minZ then some h.point.z
    else firstHitInRange maxZ minZ rest

/-- `ToolpathGenerator.findSurfaceAtPoint(x, y, maxZ)`: casts a ray downward
from `(x, y, maxZ + 100)` and returns the first intersection (in ascending
distance order) whose Z lies in `[this.bounds.min.z, maxZ]`, or `null`. -/
def findSurfaceAtPoint (mesh : List Tri) (bounds : Bounds) (x y maxZ : ℚ) :
    Option ℚ :=
  firstHitInRange maxZ bounds.min.z
    (raycastDown mesh { x := x, y := y, z := maxZ + 100 })

/-! ## Toolpath generator -/

/-- One appended layer of the toolpath (embeds the object literal pushed by
`ToolpathGenerator.generate`: `{ layer: layerIdx, z: actualZ, points }`). -/
structure Layer where
  layer : ℕ
  z : ℚ
  points : List Vec3
deriving DecidableEq, Repr

/-- `ToolpathGenerator.checkNeedsMachining(x, y, z)`: `true` iff `(x, y, z)`
lies inside the selection bounds (all axes, inclusive). -/
def checkNeedsMachining (bounds : Bounds) (x y z : ℚ) : Bool :=
  !(x < bounds.min.x || x > bounds.max.x ||
    y < bounds.min.y || y > bounds.max.y ||
    z < bounds.min.z || z > bounds.max.z)

/-- `ToolpathGenerator.scanLine(xStart, xEnd, y, z, toolRadius)`: steps
`x = xStart + i*scanStep` for `i = 0 .. ceil((xEnd-xStart)/scanStep)`
(inclusive), with `scanStep = toolDiameter * 0.2`; at each step, queries the
surface and, when a surface Z is found and `checkNeedsMachining` accepts it,
emits `(x, y, surfaceZ + toolRadius)`. -/
def scanLine (mesh : List Tri) (bounds : Bounds) (params : Params)
    (xStart xEnd y z toolRadius : ℚ) : List Vec3 :=
  let scanStep := params.toolDiameter * (1 / 5)
  let numSteps : ℤ := ⌈(xEnd - xStart) / scanStep⌉
  (List.range (numSteps + 1).toNat).filterMap fun (i : ℕ) =>
    let x := xStart + (i : ℚ) * scanStep
    match findSurfaceAtPoint mesh bounds x y z with
    | some surfaceZ =>
        if checkNeedsMachining bounds x y surfaceZ then
          some { x := x, y := y, z := surfaceZ + toolRadius }
        else none
    | none => none

/-- The row loop of `ToolpathGenerator.generateContourAtZ`, with the source's
early exit (`if (y > yEnd) break`) embedded: `scanIdx` is the current Y-step
index and the second argument the number of remaining iterations.  Odd rows
are reversed before being appended (zig-zag). -/
def contourRows (mesh : List Tri) (bounds : Bounds) (params : Params)
    (zLevel stepover toolRadius : ℚ) : ℕ → ℕ → List Vec3
  | _, 0 => []
  | scanIdx, n + 1 =>
    let y := bounds.min.y + (scanIdx : ℚ) * stepover
    if y > bounds.max.y then []
    else
      let scanPoints :=
        scanLine mesh bounds params bounds.min.x bounds.max.x y zLevel toolRadius
      (if scanIdx % 2 = 1 then scanPoints.reverse else scanPoints) ++
        contourRows mesh bounds params zLevel stepover toolRadius (scanIdx + 1) n

/-- `ToolpathGenerator.generateContourAtZ(zLevel, stepover, toolRadius)`:
scans `numScans = ceil((yEnd-yStart)/stepover)` rows starting at row index 0. -/
def generateContourAtZ (mesh : List Tri) (bounds : Bounds) (params : Params)
    (zLevel stepover toolRadius : ℚ) : List Vec3 :=
  let numScans : ℤ := ⌈(bounds.max.y - bounds.min.y) / stepover⌉
  contourRows mesh bounds params zLevel stepover toolRadius 0 numScans.toNat

/-- The layer count computed by `ToolpathGenerator.generate`:
`Math.ceil((zStart - zEnd) / this.params.stepdown)`. -/
def numLayersOf (bounds : Bounds) (params : Params) : ℤ :=
  ⌈(bounds.max.z - bounds.min.z) / params.stepdown⌉

/-- `ToolpathGenerator.generate(mesh, bounds)`: for each layer index
`layerIdx < numLayers`, targets `actualZ = max(zStart - layerIdx*stepdown,
zEnd)`, scans the contour there, and appends a layer record only when the
contour has at least one point (`if (contourPoints.length > 0)`). -/
def generate (mesh : List Tri) (bounds : Bounds) (params : Params) :
    List Layer :=
  let toolRadius := params.toolDiameter / 2
  let stepover := params.toolDiameter * params.stepover
  let zStart := bounds.max.z
  let zEnd := bounds.min.z
  (List.range (numLayersOf bounds params).toNat).filterMap fun (layerIdx : ℕ) =>
    let zLevel := zStart - (layerIdx : ℚ) * params.stepdown
    let actualZ := max zLevel zEnd
    let contourPoints :=
      generateContourAtZ mesh bounds params actualZ stepover toolRadius
    if contourPoints.length > 0 then
      some { layer := layerIdx, z := actualZ, points := contourPoints }
    else none

/-- The scan row of `generateContourAtZ` at Y-step index `j`: the `scanLine`
call issued for `scanIdx = j` (at `y = min.y + j*stepover`). -/
def rowAt (mesh : List Tri) (bounds : Bounds) (params : Params)
    (zLevel stepover toolRadius : ℚ) (j : ℕ) : List Vec3 :=
  scanLine mesh bounds params bounds.min.x bounds.max.x
    (bounds.min.y + (j : ℚ) * stepover) zLevel toolRadius

/-- The block `generateContourAtZ` appends for Y-step index `j`: the scanned
row for even `j`, the reversed row for odd `j` (`if (scanIdx % 2 === 1)
scanPoints.reverse()`). -/
def blockAt (mesh : List Tri) (bounds : Bounds) (params : Params)
    (zLevel stepover toolRadius : ℚ) (j : ℕ) : List Vec3 :=
  if j % 2 = 1 then (rowAt mesh bounds params zLevel stepover toolRadius j).reverse
  else rowAt mesh bounds params zLevel stepover toolRadius j

/-! ## Concrete fixtures for witnesses and counterexamples -/

/-- A small selection volume `[0, 1/5] × [0, 1/5] × [0, 1]`. -/
def boundsA : Bounds := ⟨⟨0, 0, 0⟩, ⟨1/5, 1/5, 1⟩⟩

/-- Tool diameter 1, stepover fraction 2/5, stepdown 3/5, feed 100, safe Z 5. -/
def paramsA : Params := ⟨1, 2/5, 3/5, 100, 5⟩

/-- A large horizontal triangle at height `h` covering the XY range of
`boundsA` (a flat plate the downward rays hit at `z = h`). -/
def plate (h : ℚ) : Tri := ⟨⟨-10, -10, h⟩, ⟨10, -10, h⟩, ⟨0, 10, h⟩⟩

/-- One-plate mesh at `z = 3/10` (inside the Z range of `boundsA`). -/
def meshA03 : List Tri := [plate (3/10)]

/-- One-plate mesh at `z = 7/10` (reachable only from the first layer). -/
def meshB07 : List Tri := [plate (7/10)]

/-- One-plate mesh at `z = 1`, the very top of `boundsA`. -/
def meshTop : List Tri := [plate 1]

/-! ## STL loader (byte level)

Buffers are `List UInt8`; a `DataView` read that would throw a RangeError is
modelled as `Option.none`. -/

/-- An IEEE-754 binary32 value as decoded by `DataView.getFloat32`: a finite
value is an exact dyadic rational; NaN and the infinities stay symbolic. -/
inductive F32 where
  | finite (q : ℚ)
  | nan
  | inf
  | neginf
deriving DecidableEq, Repr

/-- Decode a 32-bit word (already combined little-endian) as IEEE-754
binary32: sign bit 31, biased exponent bits 23–30, mantissa bits 0–22. -/
def f32valOfWord (w : ℕ) : F32 :=
  let sign : ℕ := w / 2 ^ 31 % 2
  let e : ℕ := w / 2 ^ 23 % 2 ^ 8
  let m : ℕ := w % 2 ^ 23
  if e = 255 then
    if m = 0 then (if sign = 1 then F32.neginf else F32.inf) else F32.nan
  else
    let mag : ℚ :=
      if e = 0 then (m : ℚ) * (2 : ℚ) ^ (-(149 : ℤ))
      else ((2 ^ 23 + m : ℕ) : ℚ) * (2 : ℚ) ^ ((e : ℤ) - 150)
    F32.finite (if sign = 1 then -mag else mag)

/-- The rational value of a finite binary32 word (0 for NaN/infinities; only
used under a finiteness hypothesis). -/
def f32q (w : ℕ) : ℚ :=
  match f32valOfWord w with
  | F32.finite q => q
  | _ => 0

/-- `DataView.getUint32(offset, true)`: `none` models the RangeError thrown
when fewer than 4 bytes are available at `offset`. -/
def getUint32LE (buf : List UInt8) (off : ℕ) : Option ℕ :=
  match buf[off]?, buf[off + 1]?, buf[off + 2]?, buf[off + 3]? with
  | some b0, some b1, some b2, some b3 =>
      some (b0.toNat + 2 ^ 8 * b1.toNat + 2 ^ 16 * b2.toNat + 2 ^ 24 * b3.toNat)
  | _, _, _, _ => none

/-- `DataView.getFloat32(offset, true)`: reads the same 4 bytes and
reinterprets them as binary32. -/
def getFloat32LE (buf : List UInt8) (off : ℕ) : Option F32 :=
  (getUint32LE buf off).map f32valOfWord

/-- `STLLoader.isBinarySTL(buffer)`: reads the triangle count at byte offset
80 and classifies the stream as binary iff the total length equals
`84 + numTriangles * 50`. -/
def isBinarySTL (buf : List UInt8) : Option Bool :=
  (getUint32LE buf 80).map fun numTriangles =>
    decide (buf.length = 84 + numTriangles * 50)

/-- The parsed geometry: flat position/normal buffers, 9 values per triangle
(embeds the `THREE.BufferGeometry` attribute arrays). -/
structure Geometry where
  positions : List F32
  normals : List F32
deriving DecidableEq, Repr

/-- One iteration of the `parseBinary` loop: the record for triangle `i`
starts at `offset = 84 + 50*i`; 3 floats of face normal, then 3×3 floats of
vertices; the positions contribution and the normal replicated three times;
the 2 trailing bytes are not read. -/
def readTriangleRecord (buf : List UInt8) (i : ℕ) : Option (List F32 × List F32) :=
  ((List.range 12).mapM fun j => getFloat32LE buf (84 + 50 * i + 4 * j)).bind fun ws =>
    match ws with
    | [nx, ny, nz, v1x, v1y, v1z, v2x, v2y, v2z, v3x, v3y, v3z] =>
        some ([v1x, v1y, v1z, v2x, v2y, v2z, v3x, v3y, v3z],
              [nx, ny, nz, nx, ny, nz, nx, ny, nz])
    | _ => none

/-- `STLLoader.parseBinary(buffer)`: reads the count at offset 80, then every
50-byte record in order, concatenating the per-record position and normal
contributions.  `none` models an out-of-range read. -/
def parseBinary (buf : List UInt8) : Option Geometry := do
  let numTriangles ← getUint32LE buf 80
  let recs ← (List.range numTriangles).mapM (readTriangleRecord buf)
  pure ⟨recs.flatMap Prod.fst, recs.flatMap Prod.snd⟩

/-- Modelled platform primitive: `new TextDecoder().decode` restricted to
ASCII content — bytes ≥ 0x80 (which would start UTF-8 multi-byte sequences)
are replaced by U+FFFD.  The repository's textual inputs are ASCII. -/
def decodeBytes (buf : List UInt8) : List Char :=
  buf.map fun b => if b.toNat < 128 then Char.ofNat b.toNat else '�'

/-- Modelled platform primitive: the whitespace class of JavaScript `\s` and
`String.prototype.trim`, restricted to its ASCII members. -/
def isJSWhitespace (c : Char) : Bool :=
  c = ' ' || c = '\t' || c = '\n' || c = '\r' || c = '\x0b' || c = '\x0c'

/-- Modelled platform primitive: `String.prototype.trim`. -/
def trimChars (cs : List Char) : List Char :=
  ((cs.dropWhile isJSWhitespace).reverse.dropWhile isJSWhitespace).reverse

/-- Modelled platform primitive: `String.prototype.split` against a
single-character or character-class separator: the groups between separator
occurrences (empty groups included). -/
def splitOnPred (p : Char → Bool) : List Char → List (List Char)
  | [] => [[]]
  | a :: rest =>
    match splitOnPred p rest with
    | [] => [[]]
    | grp :: groups => if p a then [] :: grp :: groups else (a :: grp) :: groups

/-- `line.split(/\s+/)` on an already-trimmed line: whitespace-run-separated
fields (splitting on each whitespace character and dropping empty groups). -/
def splitFields (cs : List Char) : List (List Char) :=
  (splitOnPred isJSWhitespace cs).filter (fun w => w ≠ [])

/-- The digits value of a run of decimal digit characters. -/
def digitsVal (cs : List Char) : ℕ :=
  cs.foldl (fun a c => 10 * a + (c.toNat - 48)) 0

/-- Modelled platform primitive: JavaScript `parseFloat`, restricted to the
decimal forms found in textual STL files (optional sign, digits with an
optional fraction and optional exponent); anything else — including the
empty string — yields NaN.  The value is kept exact in ℚ (JS rounds to
binary64; no claim inspects ASCII-parsed values). -/
def jsParseFloat (cs0 : List Char) : F32 :=
  let cs := cs0.dropWhile isJSWhitespace
  let sign : ℚ := if cs.head? = some '-' then -1 else 1
  let cs := if cs.head? = some '-' || cs.head? = some '+' then cs.tail else cs
  let intPart := cs.takeWhile Char.isDigit
  let cs2 := cs.dropWhile Char.isDigit
  let fracPart :=
    if cs2.head? = some '.' then cs2.tail.takeWhile Char.isDigit else []
  let cs3 :=
    if cs2.head? = some '.' then cs2.tail.dropWhile Char.isDigit else cs2
  if intPart = [] ∧ fracPart = [] then F32.nan
  else
    let base : ℚ := (digitsVal intPart : ℚ) +
      (digitsVal fracPart : ℚ) / (10 : ℚ) ^ fracPart.length
    let expDigits :=
      if cs3.head? = some 'e' || cs3.head? = some 'E' then
        (if cs3.tail.head? = some '-' || cs3.tail.head? = some '+' then
          cs3.tail.tail else cs3.tail).takeWhile Char.isDigit
      else []
    let expSign : ℤ :=
      if cs3.head? = some 'e' || cs3.head? = some 'E' then
        (if cs3.tail.head? = some '-' then -1 else 1)
      else 1
    F32.finite (sign * base * (10 : ℚ) ^ (expSign * (digitsVal expDigits : ℤ)))

/-- Field `i` of a split line: `parseFloat(parts[i])`, where a missing field
is `parseFloat(undefined) = NaN`. -/
def partF (parts : List (List Char)) (i : ℕ) : F32 :=
  match parts[i]? with
  | some w => jsParseFloat w
  | none => F32.nan

/-- One line of the `parseASCII` scan, transforming the accumulator
`(positions, normals, currentNormal)`. -/
def parseASCIILine (acc : List F32 × List F32 × Option (List F32))
    (line0 : List Char) : List F32 × List F32 × Option (List F32) :=
  let line := trimChars line0
  if "facet normal".data.isPrefixOf line then
    let parts := splitFields line
    (acc.1, acc.2.1, some [partF parts 2, partF parts 3, partF parts 4])
  else if "vertex".data.isPrefixOf line then
    let parts := splitFields line
    let positions := acc.1 ++ [partF parts 1, partF parts 2, partF parts 3]
    match acc.2.2 with
    | some n => (positions, acc.2.1 ++ n, acc.2.2)
    | none => (positions, acc.2.1, acc.2.2)
  else acc

/-- `STLLoader.parseASCII(buffer)`: decode as text, split into lines, scan
sequentially with a current-normal register; `facet normal` lines set the
register, `vertex` lines append a vertex and replicate the register when it
is set; all other lines are ignored. -/
def parseASCII (buf : List UInt8) : Geometry :=
  let lines := splitOnPred (fun c => c = '\n') (decodeBytes buf)
  let r := lines.foldl parseASCIILine ([], [], none)
  ⟨r.1, r.2.1⟩

/-- Modelled from the spec: `THREE.BufferGeometry.computeVertexNormals` is
library code that is not part of this repository; per the spec the normals
of the Mesh Model are "not renormalized by the loader" and stay "identical
across the three vertices of one triangle" exactly as parsed, so the pass is
modelled as preserving the parsed attribute buffers. -/
def computeVertexNormals (g : Geometry) : Geometry := g

/-- A 3-component point of binary32 values (a corner of the bounding box). -/
structure Vec3F where
  x : F32
  y : F32
  z : F32
deriving DecidableEq, Repr

/-- An axis-aligned box over binary32 values (embeds `THREE.Box3`). -/
structure Box3F where
  min : Vec3F
  max : Vec3F
deriving DecidableEq, Repr

/-- JS `Math.min` on decoded values: NaN propagates; infinities compare. -/
def fmin : F32 → F32 → F32
  | F32.finite a, F32.finite b => F32.finite (min a b)
  | F32.nan, _ => F32.nan
  | _, F32.nan => F32.nan
  | F32.neginf, _ => F32.neginf
  | _, F32.neginf => F32.neginf
  | F32.inf, b => b
  | a, F32.inf => a

/-- JS `Math.max` on decoded values: NaN propagates; infinities compare. -/
def fmax : F32 → F32 → F32
  | F32.finite a, F32.finite b => F32.finite (max a b)
  | F32.nan, _ => F32.nan
  | _, F32.nan => F32.nan
  | F32.inf, _ => F32.inf
  | _, F32.inf => F32.inf
  | F32.neginf, b => b
  | a, F32.neginf => a

/-- Group a flat position buffer into vertices (`BufferAttribute` with item
size 3: vertex `i` is elements `3i, 3i+1, 3i+2`; a trailing fragment shorter
than 3 is not a vertex). -/
def toTriples : List F32 → List (F32 × F32 × F32)
  | x :: y :: z :: rest => (x, y, z) :: toTriples rest
  | _ => []

/-- Modelled library post-processing: `BufferGeometry.computeBoundingBox`
(`THREE.Box3.setFromBufferAttribute`): componentwise min/max over all
vertices, starting from the empty box `(+inf, +inf, +inf) / (-inf, -inf, -inf)`. -/
def boxExpand (box : Box3F) (v : F32 × F32 × F32) : Box3F :=
  ⟨⟨fmin box.min.x v.1, fmin box.min.y v.2.1, fmin box.min.z v.2.2⟩,
   ⟨fmax box.max.x v.1, fmax box.max.y v.2.1, fmax box.max.z v.2.2⟩⟩

/-- Modelled library post-processing (continued): the bounding box is the
fold of `boxExpand` over the vertices, from the empty box. -/
def computeBoundingBox (positions : List F32) : Box3F :=
  (toTriples positions).foldl boxExpand
    ⟨⟨F32.inf, F32.inf, F32.inf⟩, ⟨F32.neginf, F32.neginf, F32.neginf⟩⟩

/-- The result of `STLLoader.load`: the geometry together with its computed
bounding box (the bounding sphere is also computed by the source but is
never observed by any claim). -/
structure LoadedGeometry where
  geometry : Geometry
  boundingBox : Box3F
deriving DecidableEq, Repr

/-- `STLLoader.load(buffer)`: classify via `isBinarySTL`, parse with the
matching parser, then run the post-processing passes.  `none` models a
thrown RangeError. -/
def load (buf : List UInt8) : Option LoadedGeometry := do
  let isBinary ← isBinarySTL buf
  let g ← if isBinary then parseBinary buf else pure (parseASCII buf)
  let g2 := computeVertexNormals g
  pure ⟨g2, computeBoundingBox g2.positions⟩

/-- The record returned by `STLLoader.getStats()`. -/
structure Stats where
  triangleCount : ℚ
  vertexCount : ℕ
  dimensions : Vec3F
  center : Vec3F
  minCorner : Vec3F
  maxCorner : Vec3F
deriving DecidableEq, Repr

/-- Pointwise arithmetic on decoded values as JS combines them for the
stats; finite arithmetic is exact in ℚ (the binary64 rounding of these
combinations is not modelled), NaN and mixed infinities propagate. -/
def fsub : F32 → F32 → F32
  | F32.finite a, F32.finite b => F32.finite (a - b)
  | F32.nan, _ => F32.nan
  | _, F32.nan => F32.nan
  | F32.inf, F32.inf => F32.nan
  | F32.inf, _ => F32.inf
  | F32.neginf, F32.neginf => F32.nan
  | F32.neginf, _ => F32.neginf
  | F32.finite _, F32.inf => F32.neginf
  | F32.finite _, F32.neginf => F32.inf

/-- Pointwise addition on decoded values (see `fsub`). -/
def fadd : F32 → F32 → F32
  | F32.finite a, F32.finite b => F32.finite (a + b)
  | F32.nan, _ => F32.nan
  | _, F32.nan => F32.nan
  | F32.inf, F32.neginf => F32.nan
  | F32.neginf, F32.inf => F32.nan
  | F32.inf, _ => F32.inf
  | _, F32.inf => F32.inf
  | F32.neginf, _ => F32.neginf
  | _, F32.neginf => F32.neginf

/-- Halving of a decoded value (`(max + min) / 2`). -/
def fhalf : F32 → F32
  | F32.finite a => F32.finite (a / 2)
  | x => x

/-- `STLLoader.getStats()`: vertex count is the attribute count
(`array length / 3`), `triangleCount = count / 3`, dimensions `max - min`,
center `(max + min) / 2`, and copies of the box corners. -/
def getStats (lg : LoadedGeometry) : Stats :=
  let bbox := lg.boundingBox
  let count := lg.geometry.positions.length / 3
  { triangleCount := (count : ℚ) / 3
    vertexCount := count
    dimensions := ⟨fsub bbox.max.x bbox.min.x, fsub bbox.max.y bbox.min.y,
                   fsub bbox.max.z bbox.min.z⟩
    center := ⟨fhalf (fadd bbox.max.x bbox.min.x),
               fhalf (fadd bbox.max.y bbox.min.y),
               fhalf (fadd bbox.max.z bbox.min.z)⟩
    minCorner := bbox.min
    maxCorner := bbox.max }

/-! ## Synthetic fixed-record encoding (for the round-trip property) -/

/-- The four little-endian bytes of a 32-bit word. -/
def le32Bytes (w : ℕ) : List UInt8 :=
  [UInt8.ofNat (w % 2 ^ 8), UInt8.ofNat (w / 2 ^ 8 % 2 ^ 8),
   UInt8.ofNat (w / 2 ^ 16 % 2 ^ 8), UInt8.ofNat (w / 2 ^ 24 % 2 ^ 8)]

/-- A synthetic triangle for the round-trip property: face normal and three
vertices given as raw binary32 bit patterns, plus the two uninterpreted
trailer bytes of the 50-byte record. -/
structure TriRecord where
  nx : ℕ
  ny : ℕ
  nz : ℕ
  v1x : ℕ
  v1y : ℕ
  v1z : ℕ
  v2x : ℕ
  v2y : ℕ
  v2z : ℕ
  v3x : ℕ
  v3y : ℕ
  v3z : ℕ
  attr0 : UInt8
  attr1 : UInt8
deriving DecidableEq, Repr

/-- The 12 words of a record in buffer order: normal first, then vertices. -/
def recordWords (t : TriRecord) : List ℕ :=
  [t.nx, t.ny, t.nz, t.v1x, t.v1y, t.v1z, t.v2x, t.v2y, t.v2z,
   t.v3x, t.v3y, t.v3z]

/-- The nine vertex words of a record, in buffer order. -/
def vertexWords (t : TriRecord) : List ℕ :=
  [t.v1x, t.v1y, t.v1z, t.v2x, t.v2y, t.v2z, t.v3x, t.v3y, t.v3z]

/-- The nine normal-buffer words of a record: the face normal replicated for
each of the three vertices. -/
def normalWords (t : TriRecord) : List ℕ :=
  [t.nx, t.ny, t.nz, t.nx, t.ny, t.nz, t.nx, t.ny, t.nz]

/-- The 50-byte fixed record of one triangle. -/
def encodeTriRecord (t : TriRecord) : List UInt8 :=
  (recordWords t).flatMap le32Bytes ++ [t.attr0, t.attr1]

/-- A well-formed fixed-record byte stream: an 80-byte header, the
little-endian 32-bit triangle count, then the 50-byte records. -/
def encodeBinarySTL (header : List UInt8) (tris : List TriRecord) : List UInt8 :=
  header ++ le32Bytes tris.length ++ tris.flatMap encodeTriRecord

/-- The X coordinates (as words) of all vertices of all triangles. -/
def vertexXs (tris : List TriRecord) : List ℕ :=
  tris.flatMap fun t => [t.v1x, t.v2x, t.v3x]

/-- The Y coordinates (as words) of all vertices of all triangles. -/
def vertexYs (tris : List TriRecord) : List ℕ :=
  tris.flatMap fun t => [t.v1y, t.v2y, t.v3y]

/-- The Z coordinates (as words) of all vertices of all triangles. -/
def vertexZs (tris : List TriRecord) : List ℕ :=
  tris.flatMap fun t => [t.v1z, t.v2z, t.v3z]

/-- A truncated fixed-record stream: the header declares 1 triangle (needing
134 bytes) but the stream is only 84 bytes long. -/
def truncatedSTL : List UInt8 := List.replicate 80 0 ++ [1, 0, 0, 0]

/-- The expected positions contribution of one encoded triangle (`none` for
an out-of-range index; unreachable below the count). -/
def decodedPositions (o : Option TriRecord) : List F32 :=
  match o with
  | some t => (vertexWords t).map f32valOfWord
  | none => []

/-- The expected normals contribution of one encoded triangle. -/
def decodedNormals (o : Option TriRecord) : List F32 :=
  match o with
  | some t => (normalWords t).map f32valOfWord
  | none => []

/-- The three decoded vertices of one encoded triangle. -/
def tripleOf (t : TriRecord) : List (F32 × F32 × F32) :=
  [(f32valOfWord t.v1x, f32valOfWord t.v1y, f32valOfWord t.v1z),
   (f32valOfWord t.v2x, f32valOfWord t.v2y, f32valOfWord t.v2z),
   (f32valOfWord t.v3x, f32valOfWord t.v3y, f32valOfWord t.v3z)]

/-- An all-zero 80-byte header. -/
def headerZ : List UInt8 := List.replicate 80 0

/-- A synthetic triangle with normal `(0, 0, 1)` and vertices `(0, 0, 0)`,
`(1, 0, 0)`, `(0, 1, 0)` (as binary32 bit patterns; `0x3F800000` is `1.0`). -/
def triR1 : TriRecord :=
  ⟨0, 0, 0x3F800000, 0, 0, 0, 0x3F800000, 0, 0, 0, 0x3F800000, 0, 0, 0⟩

/-! ## G-code exporter -/

/-- Modelled platform primitive: `Number.prototype.toFixed(3)` — the nearest
thousandth (ties toward the larger value) printed with a sign, the integer
digits, a dot and exactly three fractional digits. -/
def toFixed3 (q : ℚ) : String :=
  let n : ℤ := ⌊q * 1000 + 1 / 2⌋
  let a : ℕ := n.natAbs
  let frac := a % 1000
  (if n < 0 then "-" else "") ++ toString (a / 1000) ++ "." ++
    (if frac < 10 then "00" else if frac < 100 then "0" else "") ++ toString frac

/-- Left-pad a digit string with zeros to the given width. -/
def padZeros (k : ℕ) (s : String) : String :=
  ⟨List.replicate (k - s.length) '0'⟩ ++ s

/-- Modelled platform primitive: JavaScript number-to-string as used for the
parameter echoes in comment lines.  Integers print as digits; rationals
whose denominator divides a power of ten (every double that prints in fixed
notation is of this form) print as their exact shortest decimal; other
rationals — not reachable from actual JS doubles — fall back to `num/den`. -/
def jsNumToString (q : ℚ) : String :=
  if q.den = 1 then toString q.num
  else
    match (List.range 400).find? (fun k => decide (10 ^ (k + 1) % q.den = 0)) with
    | some k0 =>
        let k := k0 + 1
        let t : ℕ := q.num.natAbs * 10 ^ k / q.den
        (if q.num < 0 then "-" else "") ++ toString (t / 10 ^ k) ++ "." ++
          padZeros k (toString (t % 10 ^ k))
    | none => toString q.num ++ "/" ++ toString q.den

/-- `GCodeExporter.countTotalPoints(toolpath)`. -/
def countTotalPoints (toolpath : List Layer) : ℕ :=
  toolpath.foldl (fun sum layer => sum + layer.points.length) 0

/-- The 60-character separator comment line of the header block
(`"; "` followed by sixty `=` signs). -/
def sepLine : String := "; " ++ String.mk (List.replicate 60 '=')

/-- The header, initialization and pre-loop lines of `GCodeExporter.export`
(the `Generated:` comment carries the timestamp produced at run time, taken
here as an argument). -/
def exportHeaderLines (timestamp : String) (params : Params)
    (toolpath : List Layer) : List String :=
  ["%",
   sepLine,
   "; STL CAM Tool - Auto-generated G-code",
   sepLine,
   ";",
   "; Generated: " ++ timestamp,
   "; Tool Diameter: " ++ jsNumToString params.toolDiameter ++ " mm",
   "; Feed Rate: " ++ jsNumToString params.feedRate ++ " mm/min",
   "; Safe Z: " ++ jsNumToString params.safeZ ++ " mm",
   "; Total Layers: " ++ toString toolpath.length,
   "; Total Points: " ++ toString (countTotalPoints toolpath),
   sepLine,
   "",
   "; ========== INITIALIZATION ==========",
   "G90                 ; Absolute coordinates",
   "G21                 ; Metric units (mm)",
   "G40 G49 G80         ; Cancel offsets and cycles",
   "G94                 ; Feed per minute mode",
   "",
   "F" ++ jsNumToString params.feedRate ++ "       ; Set feed rate",
   "",
   "G0 Z" ++ toFixed3 params.safeZ ++ "    ; Retract to safe height",
   "G0 X0.000 Y0.000   ; Move to origin",
   "",
   "; ========== MACHINING OPERATIONS ==========",
   ""]

/-- The closing lines of `GCodeExporter.export`. -/
def exportFooterLines (params : Params) : List String :=
  ["; ========== PROGRAM END ==========",
   "G0 Z" ++ toFixed3 params.safeZ ++ "    ; Final retract",
   "G0 X0.000 Y0.000   ; Return to origin",
   "M5                  ; Stop spindle (if applicable)",
   "M30                 ; Program end and rewind",
   "%"]

/-- The lines the layer loop of `GCodeExporter.export` pushes for one layer:
the banner comments; then, for an empty layer, only the placeholder comment;
otherwise the rapid retract, the rapid XY move to the first point, the
single feed plunge to its Z, one feed move per remaining point (`j = 1...`)
with a progress comment after every point whose 0-based index is a multiple
of 50, and the closing rapid retract. -/
def exportLayerLines (params : Params) (totalLayers : ℕ) (layer : Layer) :
    List String :=
  ["; ====== Layer " ++ toString (layer.layer + 1) ++ "/" ++
     toString totalLayers ++ " - Z=" ++ toFixed3 layer.z ++ " ======",
   "; Points in layer: " ++ toString layer.points.length,
   ""] ++
  match layer.points with
  | [] => ["; (No points in this layer)", ""]
  | firstPoint :: rest =>
    ["; Move to start position",
     "G0 Z" ++ toFixed3 params.safeZ ++ "    ; Safe height",
     "G0 X" ++ toFixed3 firstPoint.x ++ " Y" ++ toFixed3 firstPoint.y,
     "G1 Z" ++ toFixed3 firstPoint.z ++ "   ; Lower to cutting depth",
     "",
     "; Start cutting"] ++
    rest.enum.flatMap (fun jp =>
      ["G1 X" ++ toFixed3 jp.2.x ++ " Y" ++ toFixed3 jp.2.y ++
         " Z" ++ toFixed3 jp.2.z] ++
      (if (jp.1 + 1) % 50 = 0 then
        ["; Progress: " ++ toString (jp.1 + 1) ++ "/" ++
           toString layer.points.length ++ " points"]
      else [])) ++
    ["", "G0 Z" ++ toFixed3 params.safeZ ++ "    ; Retract", ""]

/-- `GCodeExporter.export(toolpath)` as its line list: the header, then the
layer loop accumulating each layer's lines in order, then the footer. -/
def exportLines (timestamp : String) (params : Params)
    (toolpath : List Layer) : List String :=
  (toolpath.foldl
    (fun lines layer => lines ++ exportLayerLines params toolpath.length layer)
    (exportHeaderLines timestamp params toolpath)) ++ exportFooterLines params

/-- `GCodeExporter.export(toolpath)`: the emitted program text
(`lines.join('\n')`). -/
def gcodeExport (timestamp : String) (params : Params)
    (toolpath : List Layer) : String :=
  String.intercalate "\n" (exportLines timestamp params toolpath)

/-- The spec's serializer-fidelity fixture: one layer at `z = −1/2` with the
two points `(0, 0, 1/2)` and `(1, 0, 1/2)`. -/
def toolpathS : List Layer := [⟨0, -1/2, [⟨0, 0, 1/2⟩, ⟨1, 0, 1/2⟩]⟩]

/-! ## Theorems -/

/-! ### C1: the surface query takes the first in-range hit from above -/

theorem firstHitInRange_eq_find? (maxZ minZ : ℚ) (l : List Hit) :
    firstHitInRange maxZ minZ l =
      (l.find? fun h => decide (minZ ≤ h.point.z ∧ h.point.z ≤ maxZ)).map
        (fun h => h.point.z) := by
  induction l with
  | nil => rfl
  | cons h rest ih =>
    by_cases hc : minZ ≤ h.point.z ∧ h.point.z ≤ maxZ
    · rw [firstHitInRange, if_pos ⟨hc.2, hc.1⟩,
        List.find?_cons_of_pos _ (by simpa using hc)]
      rfl
    · rw [firstHitInRange, if_neg fun hh => hc ⟨hh.2, hh.1⟩,
        List.find?_cons_of_neg _ (by simpa using hc)]
      exact ih

/-- C1: for every mesh, every `(x, y)`, every ceiling `maxZ` and every floor
(the selection's `min.z`), `findSurfaceAtPoint` casts the ray downward from
`(x, y, maxZ + 100)`, and its result is exactly the Z coordinate of the first
intersection — in the distance-sorted order produced by the ray cast, which
is indeed sorted by increasing distance — whose Z lies within the closed
interval `[bounds.min.z, maxZ]`, and `none` when no intersection is in that
interval. -/
theorem c1_surface_query_first_in_range (mesh : List Tri) (bounds : Bounds)
    (x y maxZ : ℚ) :
    findSurfaceAtPoint mesh bounds x y maxZ =
      ((raycastDown mesh { x := x, y := y, z := maxZ + 100 }).find? fun h =>
          decide (bounds.min.z ≤ h.point.z ∧ h.point.z ≤ maxZ)).map
        (fun h => h.point.z) ∧
    List.Sorted hitLE (raycastDown mesh { x := x, y := y, z := maxZ + 100 }) := by
  constructor
  · exact firstHitInRange_eq_find? maxZ bounds.min.z _
  · exact List.sorted_insertionSort hitLE _


/-! ### Generator structure lemmas -/

theorem flatMap_of_map {α β γ : Type} (l : List α) (g : α → β) (f : β → List γ) :
    (l.map g).flatMap f = l.flatMap (fun x => f (g x)) := by
  induction l with
  | nil => rfl
  | cons a t ih => simp [ih]

theorem contourRows_eq_flatMap (mesh : List Tri) (bounds : Bounds) (params : Params)
    (zLevel stepover toolRadius : ℚ) :
    ∀ (n j : ℕ),
      (∀ m : ℕ, j ≤ m → m < j + n →
        bounds.min.y + (m : ℚ) * stepover ≤ bounds.max.y) →
      contourRows mesh bounds params zLevel stepover toolRadius j n =
        (List.range n).flatMap
          (fun i => blockAt mesh bounds params zLevel stepover toolRadius (j + i)) := by
  intro n
  induction n with
  | zero => intro j _; simp [contourRows]
  | succ n ih =>
    intro j h
    rw [contourRows]
    rw [if_neg (not_lt.mpr (h j le_rfl (by omega)))]
    simp only []
    rw [ih (j + 1) (fun m hm1 hm2 => h m (by omega) (by omega))]
    rw [List.range_succ_eq_map, List.flatMap_cons, flatMap_of_map]
    have harg : (fun i => blockAt mesh bounds params zLevel stepover toolRadius (j + 1 + i)) =
        (fun i => blockAt mesh bounds params zLevel stepover toolRadius (j + Nat.succ i)) := by
      funext i
      congr 1
      omega
    rw [harg]
    simp [blockAt, rowAt]

theorem scanLine_pairwise (mesh : List Tri) (bounds : Bounds) (params : Params)
    (xStart xEnd y z toolRadius : ℚ) (hd : 0 < params.toolDiameter) :
    (scanLine mesh bounds params xStart xEnd y z toolRadius).Pairwise
      (fun p q => p.x < q.x) := by
  have hstep : 0 < params.toolDiameter * (1 / 5 : ℚ) := by
    have h5 : (0 : ℚ) < 1 / 5 := by norm_num
    exact mul_pos hd h5
  have hx : ∀ (k : ℕ) (r : Vec3),
      (match findSurfaceAtPoint mesh bounds
          (xStart + (k : ℚ) * (params.toolDiameter * (1 / 5))) y z with
        | some surfaceZ =>
            if checkNeedsMachining bounds
                (xStart + (k : ℚ) * (params.toolDiameter * (1 / 5))) y surfaceZ then
              some (⟨xStart + (k : ℚ) * (params.toolDiameter * (1 / 5)), y,
                surfaceZ + toolRadius⟩ : Vec3)
            else none
        | none => none) = some r →
      r.x = xStart + (k : ℚ) * (params.toolDiameter * (1 / 5)) := by
    intro k r hr
    split at hr
    · split at hr
      · rw [Option.some.injEq] at hr
        subst hr
        rfl
      · exact Option.noConfusion hr
    · exact Option.noConfusion hr
  rw [scanLine, List.pairwise_filterMap]
  refine (List.pairwise_lt_range _).imp ?_
  intro i j hij p hp q hq
  rw [Option.mem_def] at hp hq
  simp only [] at hp hq
  rw [hx i p hp, hx j q hq]
  have hij' : (i : ℚ) < (j : ℚ) := by exact_mod_cast hij
  have hmul := mul_lt_mul_of_pos_right hij' hstep
  linarith

theorem mem_scanLine (mesh : List Tri) (bounds : Bounds) (params : Params)
    (xStart xEnd y z toolRadius : ℚ) (p : Vec3)
    (hp : p ∈ scanLine mesh bounds params xStart xEnd y z toolRadius) :
    p.y = y ∧ checkNeedsMachining bounds p.x p.y (p.z - toolRadius) = true := by
  rw [scanLine, List.mem_filterMap] at hp
  obtain ⟨i, -, hfi⟩ := hp
  simp only [] at hfi
  split at hfi
  · next surfaceZ hfs =>
    split at hfi
    · next hc =>
      rw [Option.some.injEq] at hfi
      subst hfi
      refine ⟨rfl, ?_⟩
      show checkNeedsMachining bounds _ y (surfaceZ + toolRadius - toolRadius) = true
      rwa [add_sub_cancel_right]
    · exact Option.noConfusion hfi
  · exact Option.noConfusion hfi

theorem mem_contourRows (mesh : List Tri) (bounds : Bounds) (params : Params)
    (zLevel stepover toolRadius : ℚ) :
    ∀ (n j : ℕ) (p : Vec3),
      p ∈ contourRows mesh bounds params zLevel stepover toolRadius j n →
      ∃ y, p ∈ scanLine mesh bounds params bounds.min.x bounds.max.x y zLevel toolRadius := by
  intro n
  induction n with
  | zero => intro j p hp; cases hp
  | succ n ih =>
    intro j p hp
    rw [contourRows] at hp
    split at hp
    · cases hp
    · simp only [] at hp
      rcases List.mem_append.mp hp with hblk | hrest
      · refine ⟨bounds.min.y + (j : ℚ) * stepover, ?_⟩
        split at hblk
        · exact List.mem_reverse.mp hblk
        · exact hblk
      · exact ih (j + 1) p hrest

theorem mem_generate (mesh : List Tri) (bounds : Bounds) (params : Params)
    (l : Layer) (hl : l ∈ generate mesh bounds params) :
    l.layer < (numLayersOf bounds params).toNat ∧
    l.z = max (bounds.max.z - (l.layer : ℚ) * params.stepdown) bounds.min.z ∧
    l.points = generateContourAtZ mesh bounds params l.z
        (params.toolDiameter * params.stepover) (params.toolDiameter / 2) ∧
    l.points ≠ [] := by
  rw [generate, List.mem_filterMap] at hl
  obtain ⟨k, hk, hfk⟩ := hl
  rw [List.mem_range] at hk
  simp only [] at hfk
  split at hfk
  · next hlen =>
    rw [Option.some.injEq] at hfk
    subst hfk
    refine ⟨hk, rfl, rfl, ?_⟩
    exact List.length_pos.mp hlen
  · exact Option.noConfusion hfk

theorem pairwise_map_layer (l : List ℕ) (hl : l.Pairwise (· < ·))
    (f : ℕ → Option Layer) (hf : ∀ k lay, f k = some lay → lay.layer = k) :
    ((l.filterMap f).map Layer.layer).Pairwise (· < ·) := by
  rw [List.pairwise_map, List.pairwise_filterMap]
  refine hl.imp ?_
  intro a b hab la hla lb hlb
  rw [Option.mem_def] at hla hlb
  rw [hf a la hla, hf b lb hlb]
  exact hab

/-! ### C2: layer count and last-layer Z -/

/-- C2 counterexample: with selection Z-extent `E = 1` and stepdown `s = 3/5`
(`ceil(E/s) = 2`), the loop runs its two iterations and both layers are
appended (`generate` is the full two-layer path, so the layer-count conjunct
holds here), but the very last layer's `z` is `2/5`, not the selection's
minimum Z (`0`): iteration 1 computes `zLevel = 1 − 1·(3/5) = 2/5` and
`actualZ = Math.max(2/5, 0) = 2/5`, so the clamp to `min.z` never fires and
the last target plane misses `min.z` by `2/5`. -/
theorem c2_counterexample_last_layer_z :
    generate meshA03 boundsA paramsA =
      [⟨0, 1, [⟨0, 0, 4/5⟩, ⟨1/5, 0, 4/5⟩]⟩,
       ⟨1, 2/5, [⟨0, 0, 4/5⟩, ⟨1/5, 0, 4/5⟩]⟩] ∧
    numLayersOf boundsA paramsA = 2 ∧
    (generate meshA03 boundsA paramsA).length = 2 ∧
    (generate meshA03 boundsA paramsA).getLast?.map Layer.z = some (2/5) ∧
    ¬ (generate meshA03 boundsA paramsA).getLast?.map Layer.z
        = some boundsA.min.z := by decide

/-- C2 (amended): for stepdown `s > 0` and Z-extent `E > 0`, the layer loop
runs `numLayers = ceil(E/s) ≥ 1` iterations; at EVERY iteration index
`k < ceil(E/s)` the clamp `actualZ = max(max.z − k·s, min.z)` is an identity
(the fixed stepdown never overshoots `min.z`) and the target plane
`max.z − k·s` stays strictly above `min.z`; every layer appended to the path
has its index below `ceil(E/s)`, `z` exactly `max.z − (its index)·s`, and
`z` strictly greater than `min.z` — in particular the last layer's `z` is
never equal to `min.z`; and conversely every iteration whose contour scan is
non-empty contributes exactly the layer record `{layer k, z = max.z − k·s,
its contour points}`. -/
theorem c2_layer_targets_amended (mesh : List Tri) (bounds : Bounds)
    (params : Params) (hs : 0 < params.stepdown)
    (hE : bounds.min.z < bounds.max.z) :
    0 < numLayersOf bounds params ∧
    (∀ k : ℕ, k < (numLayersOf bounds params).toNat →
      max (bounds.max.z - (k : ℚ) * params.stepdown) bounds.min.z
          = bounds.max.z - (k : ℚ) * params.stepdown ∧
      bounds.min.z < bounds.max.z - (k : ℚ) * params.stepdown) ∧
    (∀ l ∈ generate mesh bounds params,
      l.layer < (numLayersOf bounds params).toNat ∧
      l.z = bounds.max.z - (l.layer : ℚ) * params.stepdown ∧
      bounds.min.z < l.z) ∧
    (∀ k : ℕ, k < (numLayersOf bounds params).toNat →
      generateContourAtZ mesh bounds params
          (bounds.max.z - (k : ℚ) * params.stepdown)
          (params.toolDiameter * params.stepover)
          (params.toolDiameter / 2) ≠ [] →
      (⟨k, bounds.max.z - (k : ℚ) * params.stepdown,
         generateContourAtZ mesh bounds params
           (bounds.max.z - (k : ℚ) * params.stepdown)
           (params.toolDiameter * params.stepover)
           (params.toolDiameter / 2)⟩ : Layer) ∈ generate mesh bounds params) := by
  have hzgt : ∀ k : ℕ, k < (numLayersOf bounds params).toNat →
      bounds.min.z < bounds.max.z - (k : ℚ) * params.stepdown := by
    intro k hk
    have h1 : (k : ℤ) < numLayersOf bounds params := Int.lt_toNat.mp hk
    have h2 : (k : ℚ) < (bounds.max.z - bounds.min.z) / params.stepdown := by
      have hceil := Int.ceil_lt_add_one ((bounds.max.z - bounds.min.z) / params.stepdown)
      have h3 : ((k : ℤ) : ℚ) + 1 ≤
          ((⌈(bounds.max.z - bounds.min.z) / params.stepdown⌉ : ℤ) : ℚ) := by
        exact_mod_cast Int.add_one_le_iff.mpr h1
      push_cast at h3
      linarith
    have hks : (k : ℚ) * params.stepdown < bounds.max.z - bounds.min.z := by
      have h5 := mul_lt_mul_of_pos_right h2 hs
      rwa [div_mul_cancel₀ _ (ne_of_gt hs)] at h5
    linarith
  have hL : 0 < numLayersOf bounds params :=
    Int.ceil_pos.mpr (div_pos (by linarith) hs)
  refine ⟨hL, ?_, ?_, ?_⟩
  · intro k hk
    exact ⟨max_eq_left (le_of_lt (hzgt k hk)), hzgt k hk⟩
  · intro l hl
    obtain ⟨hk, hz, -, -⟩ := mem_generate mesh bounds params l hl
    have h := hzgt l.layer hk
    refine ⟨hk, ?_, ?_⟩
    · rw [hz, max_eq_left (le_of_lt h)]
    · rw [hz, max_eq_left (le_of_lt h)]
      exact h
  · intro k hk hne
    have hmax := max_eq_left (le_of_lt (hzgt k hk))
    rw [generate, List.mem_filterMap]
    refine ⟨k, List.mem_range.mpr hk, ?_⟩
    simp only []
    rw [hmax, if_pos (List.length_pos.mpr hne)]

/-- Witness for the amended C2 at the concrete plate fixture, exercising all
four conjuncts at iteration index 1 and at the path's last layer. -/
theorem c2_layer_targets_amended_witness :
    0 < numLayersOf boundsA paramsA ∧
    (max (boundsA.max.z - ((1 : ℕ) : ℚ) * paramsA.stepdown) boundsA.min.z
        = boundsA.max.z - ((1 : ℕ) : ℚ) * paramsA.stepdown ∧
      boundsA.min.z < boundsA.max.z - ((1 : ℕ) : ℚ) * paramsA.stepdown) ∧
    ((⟨1, 2/5, [⟨0, 0, 4/5⟩, ⟨1/5, 0, 4/5⟩]⟩ : Layer).layer <
        (numLayersOf boundsA paramsA).toNat ∧
      (⟨1, 2/5, [⟨0, 0, 4/5⟩, ⟨1/5, 0, 4/5⟩]⟩ : Layer).z =
        boundsA.max.z -
          ((⟨1, 2/5, [⟨0, 0, 4/5⟩, ⟨1/5, 0, 4/5⟩]⟩ : Layer).layer : ℚ) *
            paramsA.stepdown ∧
      boundsA.min.z < (⟨1, 2/5, [⟨0, 0, 4/5⟩, ⟨1/5, 0, 4/5⟩]⟩ : Layer).z) ∧
    (⟨1, boundsA.max.z - ((1 : ℕ) : ℚ) * paramsA.stepdown,
       generateContourAtZ meshA03 boundsA paramsA
         (boundsA.max.z - ((1 : ℕ) : ℚ) * paramsA.stepdown)
         (paramsA.toolDiameter * paramsA.stepover)
         (paramsA.toolDiameter / 2)⟩ : Layer) ∈ generate meshA03 boundsA paramsA :=
  ⟨(c2_layer_targets_amended meshA03 boundsA paramsA (by decide) (by decide)).1,
   (c2_layer_targets_amended meshA03 boundsA paramsA (by decide) (by decide)).2.1
     1 (by decide),
   (c2_layer_targets_amended meshA03 boundsA paramsA (by decide) (by decide)).2.2.1
     ⟨1, 2/5, [⟨0, 0, 4/5⟩, ⟨1/5, 0, 4/5⟩]⟩ (by decide),
   (c2_layer_targets_amended meshA03 boundsA paramsA (by decide) (by decide)).2.2.2
     1 (by decide) (by decide)⟩

/-! ### C3: empty layers are dropped, not appended -/

/-- C3 counterexample: the scan loop runs `ceil(E/s) = 2` iterations, but
with the plate at `z = 7/10` the second iteration (ceiling `2/5`) yields zero
qualifying points and is NOT appended: the path consists of a single layer
with index 0, not the contiguous sequence 0, 1. -/
theorem c3_counterexample_empty_layer_skipped :
    generate meshB07 boundsA paramsA =
      [⟨0, 1, [⟨0, 0, 6/5⟩, ⟨1/5, 0, 6/5⟩]⟩] ∧
    numLayersOf boundsA paramsA = 2 := by decide

/-- C3 (amended): a layer whose scan yields zero qualifying points is NOT
appended to the path; the path consists solely of layers with a non-empty
point sequence, whose index fields are strictly increasing but may skip
indices. -/
theorem c3_nonempty_layers_amended (mesh : List Tri) (bounds : Bounds)
    (params : Params) :
    ((generate mesh bounds params).map Layer.layer).Pairwise (· < ·) ∧
    ∀ l ∈ generate mesh bounds params, l.points ≠ [] := by
  constructor
  · rw [generate]
    refine pairwise_map_layer _ (List.pairwise_lt_range _) _ ?_
    intro k lay hf
    simp only [] at hf
    split at hf
    · rw [Option.some.injEq] at hf
      subst hf
      rfl
    · exact Option.noConfusion hf
  · intro l hl
    exact (mem_generate mesh bounds params l hl).2.2.2

/-- Witness for the amended C3 at the concrete plate fixture. -/
theorem c3_nonempty_layers_amended_witness :
    ((generate meshB07 boundsA paramsA).map Layer.layer).Pairwise (· < ·) ∧
    (⟨0, 1, [⟨0, 0, 6/5⟩, ⟨1/5, 0, 6/5⟩]⟩ : Layer).points ≠ [] :=
  ⟨(c3_nonempty_layers_amended meshB07 boundsA paramsA).1,
   (c3_nonempty_layers_amended meshB07 boundsA paramsA).2
     ⟨0, 1, [⟨0, 0, 6/5⟩, ⟨1/5, 0, 6/5⟩]⟩ (by decide)⟩

/-! ### C4: bounds containment of emitted points -/

/-- C4 counterexample: with the plate at the selection's very top
(`z = max.z = 1`) and tool radius `1/2`, the emitted point is
`(0, 0, 3/2)` whose Z exceeds `max.z`: an emitted point's coordinates are
NOT always inside the selection volume. -/
theorem c4_counterexample_z_exceeds_max :
    generate meshTop boundsA paramsA =
      [⟨0, 1, [⟨0, 0, 3/2⟩, ⟨1/5, 0, 3/2⟩]⟩] ∧
    ¬ ((⟨0, 0, 3/2⟩ : Vec3).z ≤ boundsA.max.z) := by decide

/-- C4 (amended): every emitted point's x and y lie within the selection's
inclusive X/Y bounds, and its z minus the tool radius — the detected surface
height — lies within the inclusive Z bounds; the emitted z itself is the
surface height plus the tool radius and can exceed `max.z`. -/
theorem c4_bounds_amended (mesh : List Tri) (bounds : Bounds) (params : Params) :
    ∀ l ∈ generate mesh bounds params, ∀ p ∈ l.points,
      bounds.min.x ≤ p.x ∧ p.x ≤ bounds.max.x ∧
      bounds.min.y ≤ p.y ∧ p.y ≤ bounds.max.y ∧
      bounds.min.z ≤ p.z - params.toolDiameter / 2 ∧
      p.z - params.toolDiameter / 2 ≤ bounds.max.z := by
  intro l hl p hp
  obtain ⟨-, -, hpts, -⟩ := mem_generate mesh bounds params l hl
  rw [hpts, generateContourAtZ] at hp
  obtain ⟨y, hrow⟩ := mem_contourRows mesh bounds params l.z
    (params.toolDiameter * params.stepover) (params.toolDiameter / 2) _ 0 p hp
  obtain ⟨-, hcheck⟩ := mem_scanLine mesh bounds params bounds.min.x bounds.max.x
    y l.z (params.toolDiameter / 2) p hrow
  simp only [checkNeedsMachining, Bool.not_eq_true', Bool.or_eq_false_iff,
    decide_eq_false_iff_not, not_lt] at hcheck
  obtain ⟨⟨⟨⟨⟨h1, h2⟩, h3⟩, h4⟩, h5⟩, h6⟩ := hcheck
  exact ⟨h1, h2, h3, h4, h5, h6⟩

/-- Witness for the amended C4 at the concrete plate fixture. -/
theorem c4_bounds_amended_witness :
    boundsA.min.x ≤ (⟨0, 0, 4/5⟩ : Vec3).x ∧
    (⟨0, 0, 4/5⟩ : Vec3).x ≤ boundsA.max.x ∧
    boundsA.min.y ≤ (⟨0, 0, 4/5⟩ : Vec3).y ∧
    (⟨0, 0, 4/5⟩ : Vec3).y ≤ boundsA.max.y ∧
    boundsA.min.z ≤ (⟨0, 0, 4/5⟩ : Vec3).z - paramsA.toolDiameter / 2 ∧
    (⟨0, 0, 4/5⟩ : Vec3).z - paramsA.toolDiameter / 2 ≤ boundsA.max.z :=
  c4_bounds_amended meshA03 boundsA paramsA
    ⟨0, 1, [⟨0, 0, 4/5⟩, ⟨1/5, 0, 4/5⟩]⟩ (by decide) ⟨0, 0, 4/5⟩ (by decide)

/-! ### C5: zig-zag row alternation -/

/-- C5: within every layer the contour is the concatenation, in Y-step order,
of one block per row index `j < ceil((max.y−min.y)/stepover)`; for even `j`
the block is the scanned row itself, whose points are in strictly increasing
X order, and for odd `j` it is the reversed row, in strictly decreasing X
order (boustrophedon). -/
theorem c5_zigzag_rows (mesh : List Tri) (bounds : Bounds) (params : Params)
    (zLevel stepover toolRadius : ℚ) (hd : 0 < params.toolDiameter)
    (hst : 0 < stepover) :
    generateContourAtZ mesh bounds params zLevel stepover toolRadius =
      (List.range (⌈(bounds.max.y - bounds.min.y) / stepover⌉.toNat)).flatMap
        (blockAt mesh bounds params zLevel stepover toolRadius) ∧
    ∀ j : ℕ,
      (j % 2 = 0 →
        blockAt mesh bounds params zLevel stepover toolRadius j =
          rowAt mesh bounds params zLevel stepover toolRadius j ∧
        (blockAt mesh bounds params zLevel stepover toolRadius j).Pairwise
          (fun p q => p.x < q.x)) ∧
      (j % 2 = 1 →
        blockAt mesh bounds params zLevel stepover toolRadius j =
          (rowAt mesh bounds params zLevel stepover toolRadius j).reverse ∧
        (blockAt mesh bounds params zLevel stepover toolRadius j).Pairwise
          (fun p q => q.x < p.x)) := by
  constructor
  · have hbound : ∀ m : ℕ, 0 ≤ m →
        m < 0 + (⌈(bounds.max.y - bounds.min.y) / stepover⌉).toNat →
        bounds.min.y + (m : ℚ) * stepover ≤ bounds.max.y := by
      intro m _ hm
      rw [Nat.zero_add] at hm
      have h1 : (m : ℤ) < ⌈(bounds.max.y - bounds.min.y) / stepover⌉ :=
        Int.lt_toNat.mp hm
      have hceil := Int.ceil_lt_add_one ((bounds.max.y - bounds.min.y) / stepover)
      have h3 : ((m : ℤ) : ℚ) + 1 ≤
          ((⌈(bounds.max.y - bounds.min.y) / stepover⌉ : ℤ) : ℚ) := by
        exact_mod_cast Int.add_one_le_iff.mpr h1
      push_cast at h3
      have h4 : (m : ℚ) < (bounds.max.y - bounds.min.y) / stepover := by linarith
      have h5 := mul_lt_mul_of_pos_right h4 hst
      rw [div_mul_cancel₀ _ (ne_of_gt hst)] at h5
      linarith
    rw [generateContourAtZ]
    rw [contourRows_eq_flatMap mesh bounds params zLevel stepover toolRadius _ 0 hbound]
    congr 1
    funext i
    rw [Nat.zero_add]
  · intro j
    refine ⟨fun hj => ?_, fun hj => ?_⟩
    · rw [blockAt, if_neg (by omega)]
      exact ⟨rfl, scanLine_pairwise mesh bounds params _ _ _ _ _ hd⟩
    · rw [blockAt, if_pos hj]
      exact ⟨rfl, List.pairwise_reverse.mpr
        (scanLine_pairwise mesh bounds params _ _ _ _ _ hd)⟩

/-- Witness for C5 at the concrete plate fixture. -/
theorem c5_zigzag_rows_witness :
    (generateContourAtZ meshA03 boundsA paramsA 1 (2/5) (1/2) =
      (List.range (⌈(boundsA.max.y - boundsA.min.y) / (2/5 : ℚ)⌉.toNat)).flatMap
        (blockAt meshA03 boundsA paramsA 1 (2/5) (1/2))) ∧
    blockAt meshA03 boundsA paramsA 1 (2/5) (1/2) 1 =
      (rowAt meshA03 boundsA paramsA 1 (2/5) (1/2) 1).reverse :=
  ⟨(c5_zigzag_rows meshA03 boundsA paramsA 1 (2/5) (1/2)
      (by decide) (by decide)).1,
   (((c5_zigzag_rows meshA03 boundsA paramsA 1 (2/5) (1/2)
      (by decide) (by decide)).2 1).2 (by decide)).1⟩

/-! ### Loader classification (C6, C7, C10) -/

theorem load_ascii_of_ne (buf : List UInt8) (n : ℕ)
    (h : getUint32LE buf 80 = some n) (hne : buf.length ≠ 84 + n * 50) :
    isBinarySTL buf = some false ∧
    load buf = some ⟨parseASCII buf,
      computeBoundingBox (parseASCII buf).positions⟩ := by
  have hb : isBinarySTL buf = some false := by
    rw [isBinarySTL, h, Option.map_some']
    rw [decide_eq_false hne]
  refine ⟨hb, ?_⟩
  rw [load, hb]
  rfl

/-- C6 counterexample: an 84-byte stream that declares 1 triangle (needing
134 bytes) is truncated relative to its header, yet `load` raises no error:
the stream fails the exact-size test, is classified as textual and parses to
an (empty) mesh. -/
theorem c6_counterexample_truncated_no_error :
    getUint32LE truncatedSTL 80 = some 1 ∧
    truncatedSTL.length < 84 + 1 * 50 ∧
    load truncatedSTL = some ⟨⟨[], []⟩,
      ⟨⟨F32.inf, F32.inf, F32.inf⟩, ⟨F32.neginf, F32.neginf, F32.neginf⟩⟩⟩ := by
  decide

/-- C6 (amended): a byte stream of length ≥ 84 that is truncated relative to
its declared triangle count does not fail at all: it is classified as the
textual encoding and parsed as text, returning a (typically empty) mesh; no
ParseError exists in the loader. -/
theorem c6_truncated_parses_as_ascii_amended (buf : List UInt8) (n : ℕ)
    (h : getUint32LE buf 80 = some n) (htrunc : buf.length < 84 + n * 50) :
    isBinarySTL buf = some false ∧
    load buf = some ⟨parseASCII buf,
      computeBoundingBox (parseASCII buf).positions⟩ :=
  load_ascii_of_ne buf n h (Nat.ne_of_lt htrunc)

/-- Witness for the amended C6 at the concrete truncated stream. -/
theorem c6_truncated_parses_as_ascii_amended_witness :
    isBinarySTL truncatedSTL = some false ∧
    load truncatedSTL = some ⟨parseASCII truncatedSTL,
      computeBoundingBox (parseASCII truncatedSTL).positions⟩ :=
  c6_truncated_parses_as_ascii_amended truncatedSTL 1 (by decide) (by decide)

/-- C7: whenever the 32-bit count `n` at byte offset 80 is readable (the
stream has at least 84 bytes; shorter streams throw, cf. C10), the stream is
classified as the fixed-record encoding iff its total length is exactly
`84 + n*50`; a stream of exactly that length is parsed by the binary parser,
and a stream of any other length is parsed by the ASCII parser. -/
theorem c7_classification (buf : List UInt8) (n : ℕ)
    (h : getUint32LE buf 80 = some n) :
    (isBinarySTL buf = some true ↔ buf.length = 84 + n * 50) ∧
    (buf.length = 84 + n * 50 →
      load buf = (parseBinary buf).map
        (fun g => ⟨g, computeBoundingBox g.positions⟩)) ∧
    (buf.length ≠ 84 + n * 50 →
      load buf = some ⟨parseASCII buf,
        computeBoundingBox (parseASCII buf).positions⟩) := by
  refine ⟨?_, ?_, ?_⟩
  · rw [isBinarySTL, h, Option.map_some']
    simp [decide_eq_true_eq]
  · intro he
    have hb : isBinarySTL buf = some true := by
      rw [isBinarySTL, h, Option.map_some', decide_eq_true he]
    rw [load, hb]
    cases parseBinary buf <;> rfl
  · intro hne
    exact (load_ascii_of_ne buf n h hne).2

/-- Witness for C7 at a concrete 85-byte stream with count 0 (not of length
`84 + 0*50`, hence textual). -/
theorem c7_classification_witness :
    (isBinarySTL (List.replicate 85 (0 : UInt8)) = some true ↔
      (List.replicate 85 (0 : UInt8)).length = 84 + 0 * 50) ∧
    ((List.replicate 85 (0 : UInt8)).length = 84 + 0 * 50 →
      load (List.replicate 85 (0 : UInt8)) =
        (parseBinary (List.replicate 85 (0 : UInt8))).map
          (fun g => ⟨g, computeBoundingBox g.positions⟩)) ∧
    ((List.replicate 85 (0 : UInt8)).length ≠ 84 + 0 * 50 →
      load (List.replicate 85 (0 : UInt8)) =
        some ⟨parseASCII (List.replicate 85 (0 : UInt8)),
          computeBoundingBox (parseASCII (List.replicate 85 (0 : UInt8))).positions⟩) :=
  c7_classification (List.replicate 85 0) 0 (by decide)

/-- C10: for every buffer shorter than 84 bytes (including the empty one)
the 32-bit count read at byte offset 80 is out of range: `load` throws the
out-of-range exception (modelled as `none`) instead of classifying the
stream or returning a mesh. -/
theorem c10_short_buffer_throws (buf : List UInt8) (h : buf.length < 84) :
    getUint32LE buf 80 = none ∧ isBinarySTL buf = none ∧ load buf = none := by
  have h83 : buf[83]? = none := List.getElem?_eq_none (by omega)
  have hg : getUint32LE buf 80 = none := by
    unfold getUint32LE
    rw [h83]
    rcases buf[80]? with _ | b0 <;> rcases buf[81]? with _ | b1 <;>
      rcases buf[82]? with _ | b2 <;> rfl
  refine ⟨hg, ?_, ?_⟩
  · rw [isBinarySTL, hg]
    rfl
  · rw [load, isBinarySTL, hg]
    rfl

/-- Witness for C10 at the empty buffer. -/
theorem c10_short_buffer_throws_witness :
    getUint32LE ([] : List UInt8) 80 = none ∧
    isBinarySTL ([] : List UInt8) = none ∧
    load ([] : List UInt8) = none :=
  c10_short_buffer_throws [] (by decide)

/-! ### C9: serializer structure -/

theorem foldl_append_eq_flatMap {α β : Type} (l : List α) (f : α → List β)
    (init : List β) :
    l.foldl (fun acc x => acc ++ f x) init = init ++ l.flatMap f := by
  induction l generalizing init with
  | nil => simp
  | cons a t ih => simp [ih]

/-- C9: the emitted program is the header, then — for each layer in order —
its banner comments followed by: for a layer with zero points only the
placeholder comment; for a non-empty layer a rapid retract to `safeZ`, a
rapid XY move to the first point, exactly one controlled-feed plunge
(`G1 Z…`) to that point's z, then exactly one controlled-feed move per
remaining point carrying explicit X, Y and Z, a progress comment after every
point whose index is a multiple of 50, and a final rapid retract to `safeZ`;
every coordinate in these moves is rendered by `toFixed3` (fixed 3-decimal
precision); the footer closes the program. -/
theorem c9_serializer_structure (timestamp : String) (params : Params)
    (toolpath : List Layer) :
    exportLines timestamp params toolpath =
      exportHeaderLines timestamp params toolpath ++
        toolpath.flatMap (exportLayerLines params toolpath.length) ++
        exportFooterLines params ∧
    (∀ l ∈ toolpath, l.points = [] →
      exportLayerLines params toolpath.length l =
        ["; ====== Layer " ++ toString (l.layer + 1) ++ "/" ++
           toString toolpath.length ++ " - Z=" ++ toFixed3 l.z ++ " ======",
         "; Points in layer: " ++ toString l.points.length,
         "",
         "; (No points in this layer)",
         ""]) ∧
    (∀ l ∈ toolpath, ∀ p rest, l.points = p :: rest →
      exportLayerLines params toolpath.length l =
        ["; ====== Layer " ++ toString (l.layer + 1) ++ "/" ++
           toString toolpath.length ++ " - Z=" ++ toFixed3 l.z ++ " ======",
         "; Points in layer: " ++ toString l.points.length,
         ""] ++
        ["; Move to start position",
         "G0 Z" ++ toFixed3 params.safeZ ++ "    ; Safe height",
         "G0 X" ++ toFixed3 p.x ++ " Y" ++ toFixed3 p.y,
         "G1 Z" ++ toFixed3 p.z ++ "   ; Lower to cutting depth",
         "",
         "; Start cutting"] ++
        rest.enum.flatMap (fun jp =>
          ["G1 X" ++ toFixed3 jp.2.x ++ " Y" ++ toFixed3 jp.2.y ++
             " Z" ++ toFixed3 jp.2.z] ++
          (if (jp.1 + 1) % 50 = 0 then
            ["; Progress: " ++ toString (jp.1 + 1) ++ "/" ++
               toString l.points.length ++ " points"]
          else [])) ++
        ["", "G0 Z" ++ toFixed3 params.safeZ ++ "    ; Retract", ""]) := by
  refine ⟨?_, ?_, ?_⟩
  · rw [exportLines, foldl_append_eq_flatMap, List.append_assoc]
  · intro l _ hpts
    simp only [exportLayerLines, hpts]
    rfl
  · intro l _ p rest hpts
    simp only [exportLayerLines, hpts]
    simp

/-- Witness for C9 at the spec's serializer-fidelity fixture. -/
theorem c9_serializer_structure_witness :
    exportLines "TS" paramsA toolpathS =
      exportHeaderLines "TS" paramsA toolpathS ++
        toolpathS.flatMap (exportLayerLines paramsA toolpathS.length) ++
        exportFooterLines paramsA ∧
    exportLayerLines paramsA toolpathS.length ⟨0, -1/2, [⟨0, 0, 1/2⟩, ⟨1, 0, 1/2⟩]⟩ =
      ["; ====== Layer " ++
         toString ((⟨0, -1/2, [⟨0, 0, 1/2⟩, ⟨1, 0, 1/2⟩]⟩ : Layer).layer + 1) ++
         "/" ++ toString toolpathS.length ++ " - Z=" ++
         toFixed3 (⟨0, -1/2, [⟨0, 0, 1/2⟩, ⟨1, 0, 1/2⟩]⟩ : Layer).z ++ " ======",
       "; Points in layer: " ++
         toString (⟨0, -1/2, [⟨0, 0, 1/2⟩, ⟨1, 0, 1/2⟩]⟩ : Layer).points.length,
       ""] ++
      ["; Move to start position",
       "G0 Z" ++ toFixed3 paramsA.safeZ ++ "    ; Safe height",
       "G0 X" ++ toFixed3 (⟨0, 0, 1/2⟩ : Vec3).x ++ " Y" ++
         toFixed3 (⟨0, 0, 1/2⟩ : Vec3).y,
       "G1 Z" ++ toFixed3 (⟨0, 0, 1/2⟩ : Vec3).z ++ "   ; Lower to cutting depth",
       "",
       "; Start cutting"] ++
      ([(⟨1, 0, 1/2⟩ : Vec3)] : List Vec3).enum.flatMap (fun jp =>
        ["G1 X" ++ toFixed3 jp.2.x ++ " Y" ++ toFixed3 jp.2.y ++
           " Z" ++ toFixed3 jp.2.z] ++
        (if (jp.1 + 1) % 50 = 0 then
          ["; Progress: " ++ toString (jp.1 + 1) ++ "/" ++
             toString (⟨0, -1/2, [⟨0, 0, 1/2⟩, ⟨1, 0, 1/2⟩]⟩ : Layer).points.length ++
             " points"]
        else [])) ++
      ["", "G0 Z" ++ toFixed3 paramsA.safeZ ++ "    ; Retract", ""] :=
  ⟨(c9_serializer_structure "TS" paramsA toolpathS).1,
   (c9_serializer_structure "TS" paramsA toolpathS).2.2
     ⟨0, -1/2, [⟨0, 0, 1/2⟩, ⟨1, 0, 1/2⟩]⟩ (by decide)
     ⟨0, 0, 1/2⟩ [⟨1, 0, 1/2⟩] rfl⟩

/-! ### C8: round-trip of the fixed-record encoding -/

theorem length_le32Bytes (w : ℕ) : (le32Bytes w).length = 4 := rfl

theorem length_flatMap_const {α β : Type} (l : List α) (f : α → List β) (L : ℕ)
    (hf : ∀ x ∈ l, (f x).length = L) : (l.flatMap f).length = L * l.length := by
  induction l with
  | nil => simp
  | cons a t ih =>
    rw [List.flatMap_cons, List.length_append, hf a (by simp),
      ih (fun x hx => hf x (by simp [hx]))]
    simp [Nat.mul_succ]
    omega

theorem length_encodeTriRecord (t : TriRecord) : (encodeTriRecord t).length = 50 := by
  rfl

theorem length_encodeBinarySTL (header : List UInt8) (tris : List TriRecord)
    (hh : header.length = 80) :
    (encodeBinarySTL header tris).length = 84 + 50 * tris.length := by
  rw [encodeBinarySTL, List.length_append, List.length_append, hh, length_le32Bytes,
    length_flatMap_const tris encodeTriRecord 50 (fun t _ => length_encodeTriRecord t)]

theorem toNat_ofNat8 (n : ℕ) : (UInt8.ofNat n).toNat = n % 256 := rfl

theorem getUint32LE_append_right (P S : List UInt8) (j : ℕ) :
    getUint32LE (P ++ S) (P.length + j) = getUint32LE S j := by
  unfold getUint32LE
  have e0 : (P ++ S)[P.length + j]? = S[j]? := by
    rw [List.getElem?_append_right (by omega)]
    congr 1
    omega
  have e1 : (P ++ S)[P.length + j + 1]? = S[j + 1]? := by
    rw [List.getElem?_append_right (by omega)]
    congr 1
    omega
  have e2 : (P ++ S)[P.length + j + 2]? = S[j + 2]? := by
    rw [List.getElem?_append_right (by omega)]
    congr 1
    omega
  have e3 : (P ++ S)[P.length + j + 3]? = S[j + 3]? := by
    rw [List.getElem?_append_right (by omega)]
    congr 1
    omega
  rw [e0, e1, e2, e3]

theorem getUint32LE_le32 (w : ℕ) (hw : w < 2 ^ 32) (S : List UInt8) :
    getUint32LE (le32Bytes w ++ S) 0 = some w := by
  show getUint32LE (UInt8.ofNat (w % 2 ^ 8) :: UInt8.ofNat (w / 2 ^ 8 % 2 ^ 8) ::
    UInt8.ofNat (w / 2 ^ 16 % 2 ^ 8) :: UInt8.ofNat (w / 2 ^ 24 % 2 ^ 8) :: S) 0 = some w
  unfold getUint32LE
  simp only [List.getElem?_cons_zero, List.getElem?_cons_succ, toNat_ofNat8,
    Option.some.injEq]
  omega

theorem getUint32LE_flatMap_le32 (ws : List ℕ) (A : List UInt8) :
    ∀ (j w : ℕ), ws[j]? = some w → w < 2 ^ 32 →
      getUint32LE (ws.flatMap le32Bytes ++ A) (4 * j) = some w := by
  induction ws with
  | nil => intro j w hj _; simp at hj
  | cons w0 rest ih =>
    intro j w hj hw
    cases j with
    | zero =>
      rw [List.getElem?_cons_zero, Option.some.injEq] at hj
      subst hj
      rw [List.flatMap_cons, List.append_assoc, Nat.mul_zero]
      exact getUint32LE_le32 w0 hw _
    | succ j =>
      rw [List.getElem?_cons_succ] at hj
      rw [List.flatMap_cons, List.append_assoc,
        show 4 * (j + 1) = (le32Bytes w0).length + 4 * j by
          rw [length_le32Bytes]; omega,
        getUint32LE_append_right]
      exact ih j w hj hw

theorem getUint32LE_drop (buf : List UInt8) (k j : ℕ) :
    getUint32LE (buf.drop k) j = getUint32LE buf (k + j) := by
  unfold getUint32LE
  rw [List.getElem?_drop, List.getElem?_drop, List.getElem?_drop, List.getElem?_drop]
  rw [show k + (j + 1) = k + j + 1 by omega, show k + (j + 2) = k + j + 2 by omega,
    show k + (j + 3) = k + j + 3 by omega]

theorem drop_flatMap_encode (tris : List TriRecord) :
    ∀ (i : ℕ) (t : TriRecord), tris[i]? = some t →
      ∃ R, (tris.flatMap encodeTriRecord).drop (50 * i) = encodeTriRecord t ++ R := by
  induction tris with
  | nil => intro i t hi; simp at hi
  | cons t0 rest ih =>
    intro i t hi
    cases i with
    | zero =>
      rw [List.getElem?_cons_zero, Option.some.injEq] at hi
      subst hi
      exact ⟨rest.flatMap encodeTriRecord,
        by rw [Nat.mul_zero, List.drop_zero, List.flatMap_cons]⟩
    | succ i =>
      rw [List.getElem?_cons_succ] at hi
      obtain ⟨R, hR⟩ := ih i t hi
      refine ⟨R, ?_⟩
      rw [List.flatMap_cons,
        show 50 * (i + 1) = (encodeTriRecord t0).length + 50 * i by
          rw [length_encodeTriRecord]; omega,
        ← List.drop_drop, List.drop_left, hR]

theorem encode_field_read (header : List UInt8) (tris : List TriRecord)
    (hh : header.length = 80) (i : ℕ) (t : TriRecord) (hi : tris[i]? = some t)
    (hw : ∀ w ∈ recordWords t, w < 2 ^ 32) (j w : ℕ)
    (hj : (recordWords t)[j]? = some w) :
    getFloat32LE (encodeBinarySTL header tris) (84 + 50 * i + 4 * j) =
      some (f32valOfWord w) := by
  obtain ⟨R, hR⟩ := drop_flatMap_encode tris i t hi
  have hdrop : (encodeBinarySTL header tris).drop (84 + 50 * i) =
      (recordWords t).flatMap le32Bytes ++ ([t.attr0, t.attr1] ++ R) := by
    rw [encodeBinarySTL, ← List.append_assoc,
      show 84 + 50 * i = (header ++ le32Bytes tris.length).length + 50 * i by
        rw [List.length_append, hh, length_le32Bytes],
      ← List.drop_drop, List.drop_left, hR, encodeTriRecord, List.append_assoc]
  have hshift : getFloat32LE (encodeBinarySTL header tris) (84 + 50 * i + 4 * j) =
      getFloat32LE ((encodeBinarySTL header tris).drop (84 + 50 * i)) (4 * j) := by
    rw [getFloat32LE, getFloat32LE, getUint32LE_drop]
  rw [hshift, hdrop, getFloat32LE,
    getUint32LE_flatMap_le32 (recordWords t) _ j w hj (hw w (List.getElem?_mem hj)),
    Option.map_some']

theorem readTriangleRecord_encode (header : List UInt8) (tris : List TriRecord)
    (hh : header.length = 80) (i : ℕ) (t : TriRecord) (hi : tris[i]? = some t)
    (hw : ∀ w ∈ recordWords t, w < 2 ^ 32) :
    readTriangleRecord (encodeBinarySTL header tris) i =
      some ((vertexWords t).map f32valOfWord, (normalWords t).map f32valOfWord) := by
  have h00 := encode_field_read header tris hh i t hi hw 0 t.nx rfl
  have h01 := encode_field_read header tris hh i t hi hw 1 t.ny rfl
  have h02 := encode_field_read header tris hh i t hi hw 2 t.nz rfl
  have h03 := encode_field_read header tris hh i t hi hw 3 t.v1x rfl
  have h04 := encode_field_read header tris hh i t hi hw 4 t.v1y rfl
  have h05 := encode_field_read header tris hh i t hi hw 5 t.v1z rfl
  have h06 := encode_field_read header tris hh i t hi hw 6 t.v2x rfl
  have h07 := encode_field_read header tris hh i t hi hw 7 t.v2y rfl
  have h08 := encode_field_read header tris hh i t hi hw 8 t.v2z rfl
  have h09 := encode_field_read header tris hh i t hi hw 9 t.v3x rfl
  have h10 := encode_field_read header tris hh i t hi hw 10 t.v3y rfl
  have h11 := encode_field_read header tris hh i t hi hw 11 t.v3z rfl
  rw [readTriangleRecord,
    show List.range 12 = [0, 1, 2, 3, 4, 5, 6, 7, 8, 9, 10, 11] from rfl]
  simp only [List.mapM_cons, List.mapM_nil, h00, h01, h02, h03, h04, h05, h06,
    h07, h08, h09, h10, h11, Option.bind_eq_bind, Option.some_bind, pure,
    Option.bind_some]
  rfl

theorem mapM_eq_some_of_mem {α : Type} (l : List ℕ) (f : ℕ → Option α) (g : ℕ → α)
    (h : ∀ i ∈ l, f i = some (g i)) : l.mapM f = some (l.map g) := by
  induction l with
  | nil => rfl
  | cons a tl ih =>
    rw [List.mapM_cons, h a (by simp), ih (fun i hi => h i (by simp [hi]))]
    rfl

theorem flatMap_range_getElem {α β : Type} (l : List α) (H : Option α → List β) :
    (List.range l.length).flatMap (fun i => H l[i]?) =
      l.flatMap (fun t => H (some t)) := by
  induction l with
  | nil => rfl
  | cons a rest ih =>
    have h1 : (List.range (a :: rest).length).flatMap (fun i => H (a :: rest)[i]?) =
        H (some a) ++ (List.range rest.length).flatMap (fun i => H rest[i]?) := by
      rw [List.length_cons, List.range_succ_eq_map, List.flatMap_cons, flatMap_of_map]
      congr 1
      · rw [List.getElem?_cons_zero]
      · congr 1
        funext i
        congr 1
        exact (show (a :: rest)[Nat.succ i]? = rest[i]? from List.getElem?_cons_succ)
    rw [h1, ih, List.flatMap_cons]

theorem parseBinary_encode (header : List UInt8) (tris : List TriRecord)
    (hh : header.length = 80) (hN : tris.length < 2 ^ 32)
    (hw : ∀ t ∈ tris, ∀ w ∈ recordWords t, w < 2 ^ 32) :
    parseBinary (encodeBinarySTL header tris) =
      some ⟨(tris.flatMap vertexWords).map f32valOfWord,
            (tris.flatMap normalWords).map f32valOfWord⟩ := by
  have hcount : getUint32LE (encodeBinarySTL header tris) 80 = some tris.length := by
    rw [encodeBinarySTL, List.append_assoc,
      show (80 : ℕ) = header.length + 0 by omega,
      getUint32LE_append_right]
    exact getUint32LE_le32 tris.length hN _
  have hg : ∀ i ∈ List.range tris.length,
      readTriangleRecord (encodeBinarySTL header tris) i =
        some (decodedPositions tris[i]?, decodedNormals tris[i]?) := by
    intro i hi
    rw [List.mem_range] at hi
    have ht : tris[i]? = some tris[i] := List.getElem?_eq_getElem hi
    rw [readTriangleRecord_encode header tris hh i tris[i] ht
        (hw tris[i] (List.getElem_mem hi)), ht]
    rfl
  rw [parseBinary, hcount, Option.bind_eq_bind, Option.some_bind,
    mapM_eq_some_of_mem _ _ _ hg, Option.bind_eq_bind, Option.some_bind]
  congr 1
  congr 1
  · rw [flatMap_of_map]
    have hx : ((List.range tris.length).flatMap fun i =>
        (decodedPositions tris[i]?, decodedNormals tris[i]?).1) =
        (List.range tris.length).flatMap fun i => decodedPositions tris[i]? := rfl
    rw [hx, flatMap_range_getElem tris (fun o => decodedPositions o),
      List.map_flatMap]
    rfl
  · rw [flatMap_of_map]
    have hx : ((List.range tris.length).flatMap fun i =>
        (decodedPositions tris[i]?, decodedNormals tris[i]?).2) =
        (List.range tris.length).flatMap fun i => decodedNormals tris[i]? := rfl
    rw [hx, flatMap_range_getElem tris (fun o => decodedNormals o),
      List.map_flatMap]
    rfl

theorem encode_count (header : List UInt8) (tris : List TriRecord)
    (hh : header.length = 80) (hN : tris.length < 2 ^ 32) :
    getUint32LE (encodeBinarySTL header tris) 80 = some tris.length := by
  rw [encodeBinarySTL, List.append_assoc,
    show (80 : ℕ) = header.length + 0 by omega,
    getUint32LE_append_right]
  exact getUint32LE_le32 tris.length hN _

theorem toTriples_encode (tris : List TriRecord) :
    toTriples ((tris.flatMap vertexWords).map f32valOfWord) =
      tris.flatMap tripleOf := by
  induction tris with
  | nil => rfl
  | cons t rest ih =>
    rw [List.flatMap_cons, List.map_append, List.flatMap_cons, ← ih]
    rfl

theorem computeBoundingBox_components (verts : List (F32 × F32 × F32)) :
    ∀ b : Box3F, verts.foldl boxExpand b =
      ⟨⟨(verts.map fun v => v.1).foldl fmin b.min.x,
        (verts.map fun v => v.2.1).foldl fmin b.min.y,
        (verts.map fun v => v.2.2).foldl fmin b.min.z⟩,
       ⟨(verts.map fun v => v.1).foldl fmax b.max.x,
        (verts.map fun v => v.2.1).foldl fmax b.max.y,
        (verts.map fun v => v.2.2).foldl fmax b.max.z⟩⟩ := by
  induction verts with
  | nil => intro b; rfl
  | cons v rest ih =>
    intro b
    rw [List.foldl_cons, ih]
    rfl

theorem foldl_fmin_finite (qs : List ℚ) :
    ∀ a : ℚ, (qs.map F32.finite).foldl fmin (F32.finite a) =
      F32.finite (qs.foldl min a) := by
  induction qs with
  | nil => intro a; rfl
  | cons q tl ih => intro a; rw [List.map_cons, List.foldl_cons, List.foldl_cons]; exact ih _

theorem foldl_fmax_finite (qs : List ℚ) :
    ∀ a : ℚ, (qs.map F32.finite).foldl fmax (F32.finite a) =
      F32.finite (qs.foldl max a) := by
  induction qs with
  | nil => intro a; rfl
  | cons q tl ih => intro a; rw [List.map_cons, List.foldl_cons, List.foldl_cons]; exact ih _

theorem foldl_fmin_inf (q : ℚ) (tl : List ℚ) :
    ((q :: tl).map F32.finite).foldl fmin F32.inf = F32.finite (tl.foldl min q) := by
  rw [List.map_cons, List.foldl_cons]
  exact foldl_fmin_finite tl q

theorem foldl_fmax_neginf (q : ℚ) (tl : List ℚ) :
    ((q :: tl).map F32.finite).foldl fmax F32.neginf = F32.finite (tl.foldl max q) := by
  rw [List.map_cons, List.foldl_cons]
  exact foldl_fmax_finite tl q

theorem map_decode_finite (ws : List ℕ)
    (h : ∀ w ∈ ws, f32valOfWord w = F32.finite (f32q w)) :
    ws.map f32valOfWord = (ws.map f32q).map F32.finite := by
  rw [List.map_map]
  exact List.map_congr_left h

theorem verts_component_x (tris : List TriRecord) :
    ((tris.flatMap tripleOf).map fun v => v.1) =
      (vertexXs tris).map f32valOfWord := by
  rw [List.map_flatMap, vertexXs, List.map_flatMap]
  congr 1

theorem verts_component_y (tris : List TriRecord) :
    ((tris.flatMap tripleOf).map fun v => v.2.1) =
      (vertexYs tris).map f32valOfWord := by
  rw [List.map_flatMap, vertexYs, List.map_flatMap]
  congr 1

theorem verts_component_z (tris : List TriRecord) :
    ((tris.flatMap tripleOf).map fun v => v.2.2) =
      (vertexZs tris).map f32valOfWord := by
  rw [List.map_flatMap, vertexZs, List.map_flatMap]
  congr 1

theorem mem_vertexXs (tris : List TriRecord) (w : ℕ) (h : w ∈ vertexXs tris) :
    ∃ t ∈ tris, w ∈ vertexWords t := by
  rw [vertexXs, List.mem_flatMap] at h
  obtain ⟨t, ht, hw⟩ := h
  refine ⟨t, ht, ?_⟩
  simp only [vertexWords, List.mem_cons, List.not_mem_nil, or_false] at hw ⊢
  tauto

theorem mem_vertexYs (tris : List TriRecord) (w : ℕ) (h : w ∈ vertexYs tris) :
    ∃ t ∈ tris, w ∈ vertexWords t := by
  rw [vertexYs, List.mem_flatMap] at h
  obtain ⟨t, ht, hw⟩ := h
  refine ⟨t, ht, ?_⟩
  simp only [vertexWords, List.mem_cons, List.not_mem_nil, or_false] at hw ⊢
  tauto

theorem mem_vertexZs (tris : List TriRecord) (w : ℕ) (h : w ∈ vertexZs tris) :
    ∃ t ∈ tris, w ∈ vertexWords t := by
  rw [vertexZs, List.mem_flatMap] at h
  obtain ⟨t, ht, hw⟩ := h
  refine ⟨t, ht, ?_⟩
  simp only [vertexWords, List.mem_cons, List.not_mem_nil, or_false] at hw ⊢
  tauto

theorem axis_fold (ws : List ℕ)
    (hfin : ∀ w ∈ ws, f32valOfWord w = F32.finite (f32q w)) (hne : ws ≠ []) :
    ∃ m M : ℚ, (ws.map f32q).min? = some m ∧ (ws.map f32q).max? = some M ∧
      (ws.map f32valOfWord).foldl fmin F32.inf = F32.finite m ∧
      (ws.map f32valOfWord).foldl fmax F32.neginf = F32.finite M := by
  cases hws : ws.map f32q with
  | nil => exact absurd (List.map_eq_nil_iff.mp hws) hne
  | cons q tl =>
    refine ⟨tl.foldl min q, tl.foldl max q, ?_, ?_, ?_, ?_⟩
    · rfl
    · rfl
    · rw [map_decode_finite ws hfin, hws]
      exact foldl_fmin_inf q tl
    · rw [map_decode_finite ws hfin, hws]
      exact foldl_fmax_neginf q tl

theorem vertexXs_ne_nil (tris : List TriRecord) (h : tris ≠ []) :
    vertexXs tris ≠ [] := by
  cases tris with
  | nil => exact absurd rfl h
  | cons t r => simp [vertexXs]

theorem vertexYs_ne_nil (tris : List TriRecord) (h : tris ≠ []) :
    vertexYs tris ≠ [] := by
  cases tris with
  | nil => exact absurd rfl h
  | cons t r => simp [vertexYs]

theorem vertexZs_ne_nil (tris : List TriRecord) (h : tris ≠ []) :
    vertexZs tris ≠ [] := by
  cases tris with
  | nil => exact absurd rfl h
  | cons t r => simp [vertexZs]

theorem length_positions_encode (tris : List TriRecord) :
    ((tris.flatMap vertexWords).map f32valOfWord).length = 9 * tris.length := by
  rw [List.length_map, length_flatMap_const tris vertexWords 9 (fun t _ => rfl)]

/-- C8: encoding `N` synthetic triangles as a well-formed fixed-record byte
stream and loading it classifies the stream as binary, reproduces exactly the
3N encoded vertices in order and, per triangle, its face normal replicated
for its three vertices in the normals buffer; and `getStats` reports the
triangle count `N`, the vertex count `3N`, and extent/center/min/max equal
to the analytically computed bounds (componentwise min/max over the decoded
vertices, their differences and midpoints). -/
theorem c8_roundtrip_fixed_record (header : List UInt8) (tris : List TriRecord)
    (hh : header.length = 80) (hN : tris.length < 2 ^ 32)
    (hw : ∀ t ∈ tris, ∀ w ∈ recordWords t, w < 2 ^ 32)
    (hfin : ∀ t ∈ tris, ∀ w ∈ vertexWords t, f32valOfWord w = F32.finite (f32q w))
    (hne : tris ≠ []) :
    isBinarySTL (encodeBinarySTL header tris) = some true ∧
    load (encodeBinarySTL header tris) =
      some ⟨⟨(tris.flatMap vertexWords).map f32valOfWord,
             (tris.flatMap normalWords).map f32valOfWord⟩,
            computeBoundingBox ((tris.flatMap vertexWords).map f32valOfWord)⟩ ∧
    ∃ mx Mx my My mz Mz : ℚ,
      ((vertexXs tris).map f32q).min? = some mx ∧
      ((vertexXs tris).map f32q).max? = some Mx ∧
      ((vertexYs tris).map f32q).min? = some my ∧
      ((vertexYs tris).map f32q).max? = some My ∧
      ((vertexZs tris).map f32q).min? = some mz ∧
      ((vertexZs tris).map f32q).max? = some Mz ∧
      getStats ⟨⟨(tris.flatMap vertexWords).map f32valOfWord,
                 (tris.flatMap normalWords).map f32valOfWord⟩,
                computeBoundingBox ((tris.flatMap vertexWords).map f32valOfWord)⟩ =
        { triangleCount := tris.length,
          vertexCount := 3 * tris.length,
          dimensions := ⟨F32.finite (Mx - mx), F32.finite (My - my),
                         F32.finite (Mz - mz)⟩,
          center := ⟨F32.finite ((Mx + mx) / 2), F32.finite ((My + my) / 2),
                     F32.finite ((Mz + mz) / 2)⟩,
          minCorner := ⟨F32.finite mx, F32.finite my, F32.finite mz⟩,
          maxCorner := ⟨F32.finite Mx, F32.finite My, F32.finite Mz⟩ } := by
  have hbuflen := length_encodeBinarySTL header tris hh
  have hcount := encode_count header tris hh hN
  have hbin : isBinarySTL (encodeBinarySTL header tris) = some true := by
    rw [isBinarySTL, hcount, Option.map_some']
    congr 1
    exact decide_eq_true (by rw [hbuflen]; omega)
  have hparse := parseBinary_encode header tris hh hN hw
  have hload : load (encodeBinarySTL header tris) =
      some ⟨⟨(tris.flatMap vertexWords).map f32valOfWord,
             (tris.flatMap normalWords).map f32valOfWord⟩,
            computeBoundingBox ((tris.flatMap vertexWords).map f32valOfWord)⟩ := by
    rw [load, hbin]
    simp only [Option.bind_eq_bind, Option.some_bind, if_true, hparse]
    rfl
  refine ⟨hbin, hload, ?_⟩
  have hfinx : ∀ w ∈ vertexXs tris, f32valOfWord w = F32.finite (f32q w) := by
    intro w hw'
    obtain ⟨t, ht, hwt⟩ := mem_vertexXs tris w hw'
    exact hfin t ht w hwt
  have hfiny : ∀ w ∈ vertexYs tris, f32valOfWord w = F32.finite (f32q w) := by
    intro w hw'
    obtain ⟨t, ht, hwt⟩ := mem_vertexYs tris w hw'
    exact hfin t ht w hwt
  have hfinz : ∀ w ∈ vertexZs tris, f32valOfWord w = F32.finite (f32q w) := by
    intro w hw'
    obtain ⟨t, ht, hwt⟩ := mem_vertexZs tris w hw'
    exact hfin t ht w hwt
  obtain ⟨mx, Mx, hminx, hmaxx, hfmx, hfMx⟩ :=
    axis_fold (vertexXs tris) hfinx (vertexXs_ne_nil tris hne)
  obtain ⟨my, My, hminy, hmaxy, hfmy, hfMy⟩ :=
    axis_fold (vertexYs tris) hfiny (vertexYs_ne_nil tris hne)
  obtain ⟨mz, Mz, hminz, hmaxz, hfmz, hfMz⟩ :=
    axis_fold (vertexZs tris) hfinz (vertexZs_ne_nil tris hne)
  refine ⟨mx, Mx, my, My, mz, Mz, hminx, hmaxx, hminy, hmaxy, hminz, hmaxz, ?_⟩
  have hbox : computeBoundingBox ((tris.flatMap vertexWords).map f32valOfWord) =
      ⟨⟨F32.finite mx, F32.finite my, F32.finite mz⟩,
       ⟨F32.finite Mx, F32.finite My, F32.finite Mz⟩⟩ := by
    rw [computeBoundingBox, toTriples_encode, computeBoundingBox_components,
      verts_component_x, verts_component_y, verts_component_z]
    simp only [hfmx, hfMx, hfmy, hfMy, hfmz, hfMz]
  have hcnt : ((tris.flatMap vertexWords).map f32valOfWord).length / 3 =
      3 * tris.length := by
    rw [length_positions_encode]
    omega
  rw [getStats, hbox]
  simp only [hcnt, fsub, fadd, fhalf]
  congr 1
  push_cast
  ring

/-- Witness for C8 at a one-triangle stream (unit right triangle with face
normal `(0, 0, 1)`). -/
theorem c8_roundtrip_fixed_record_witness :
    isBinarySTL (encodeBinarySTL headerZ [triR1]) = some true ∧
    load (encodeBinarySTL headerZ [triR1]) =
      some ⟨⟨([triR1].flatMap vertexWords).map f32valOfWord,
             ([triR1].flatMap normalWords).map f32valOfWord⟩,
            computeBoundingBox (([triR1].flatMap vertexWords).map f32valOfWord)⟩ ∧
    ∃ mx Mx my My mz Mz : ℚ,
      ((vertexXs [triR1]).map f32q).min? = some mx ∧
      ((vertexXs [triR1]).map f32q).max? = some Mx ∧
      ((vertexYs [triR1]).map f32q).min? = some my ∧
      ((vertexYs [triR1]).map f32q).max? = some My ∧
      ((vertexZs [triR1]).map f32q).min? = some mz ∧
      ((vertexZs [triR1]).map f32q).max? = some Mz ∧
      getStats ⟨⟨([triR1].flatMap vertexWords).map f32valOfWord,
                 ([triR1].flatMap normalWords).map f32valOfWord⟩,
                computeBoundingBox (([triR1].flatMap vertexWords).map f32valOfWord)⟩ =
        { triangleCount := ([triR1] : List TriRecord).length,
          vertexCount := 3 * ([triR1] : List TriRecord).length,
          dimensions := ⟨F32.finite (Mx - mx), F32.finite (My - my),
                         F32.finite (Mz - mz)⟩,
          center := ⟨F32.finite ((Mx + mx) / 2), F32.finite ((My + my) / 2),
                     F32.finite ((Mz + mz) / 2)⟩,
          minCorner := ⟨F32.finite mx, F32.finite my, F32.finite mz⟩,
          maxCorner := ⟨F32.finite Mx, F32.finite My, F32.finite Mz⟩ } :=
  c8_roundtrip_fixed_record headerZ [triR1] (by decide) (by decide) (by decide)
    (by decide) (by decide)
